import Mathlib

/-!
Verification of the arkimedes ARK-management client.

Python strings are embedded as `List Char` (`PyStr`); Python string
operations (`split`, `strip`, `replace`, slicing) are translated as
executable Lean functions with Python's semantics.  Python `dict`s are
embedded as insertion-ordered association lists, assignment replacing the
value in place.  Dynamically typed attribute values are embedded as `PyVal`.
Fallible Python code (exceptions such as `ValueError`, `IndexError`,
`AttributeError`, `IntegrityError`) is embedded with `Except Unit`.
-/

abbrev PyStr := List Char

/-- Characters stripped by Python's `str.strip()` (ASCII fragment). -/
def pyIsSpace (c : Char) : Bool :=
  c = ' ' || c = '\t' || c = '\n' || c = '\r' || c = '\x0b' || c = '\x0c'

/-- `s.lstrip()` -/
def pyStripLeft (s : PyStr) : PyStr := s.dropWhile pyIsSpace

/-- `s.rstrip()` -/
def pyStripRight (s : PyStr) : PyStr := (s.reverse.dropWhile pyIsSpace).reverse

/-- `s.strip()` -/
def pyStrip (s : PyStr) : PyStr := pyStripLeft (pyStripRight s)

/-- Prepend a character to the first piece of a split result. -/
def consHead (c : Char) : List PyStr → List PyStr
  | [] => [[c]]
  | h :: t => (c :: h) :: t

/-- `s.split("\n")` -/
def splitLines : PyStr → List PyStr
  | [] => [[]]
  | c :: rest =>
    if c = '\n' then [] :: splitLines rest else consHead c (splitLines rest)

/-- `s.split("\n\n")`: split on non-overlapping occurrences, left to right. -/
def splitBlank : PyStr → List PyStr
  | [] => [[]]
  | [c] => [[c]]
  | c1 :: c2 :: rest =>
    if c1 = '\n' ∧ c2 = '\n' then [] :: splitBlank rest
    else consHead c1 (splitBlank (c2 :: rest))

/-- `s.split(":", 1)`: `none` when the string holds no colon (the caller's
tuple unpacking then raises `ValueError`). -/
def splitFirstColon : PyStr → Option (PyStr × PyStr)
  | [] => none
  | c :: rest =>
    if c = ':' then some ([], rest)
    else (splitFirstColon rest).map (fun p => (c :: p.1, p.2))

/-- Recursion core of `s.replace(pat, repl)`; the fuel starts at the
string's length, which bounds the number of steps since every step
consumes at least one character. -/
def pyReplaceAux (pat repl : PyStr) : Nat → PyStr → PyStr
  | 0, s => s
  | fuel + 1, s =>
    match s with
    | [] => []
    | c :: rest =>
      if pat ≠ [] ∧ pat.isPrefixOf (c :: rest) then
        repl ++ pyReplaceAux pat repl fuel ((c :: rest).drop pat.length)
      else
        c :: pyReplaceAux pat repl fuel rest

/-- `s.replace(pat, repl)` for a non-empty `pat`: replace every
non-overlapping occurrence, scanning left to right. -/
def pyReplace (pat repl s : PyStr) : PyStr :=
  pyReplaceAux pat repl s.length s

/-- Python `dict` assignment `d[k] = v`: replace in place if the key is
present, else append (insertion order preserved). -/
def dictInsert (k : PyStr) (v : α) (d : List (PyStr × α)) : List (PyStr × α) :=
  if d.any (fun p => p.1 == k) then
    d.map (fun p => if p.1 == k then (p.1, v) else p)
  else
    d ++ [(k, v)]

/-- Python `d.get(k)`. -/
def dictGet (d : List (PyStr × α)) (k : PyStr) : Option α :=
  (d.find? (fun p => p.1 == k)).map Prod.snd

/-- `ds` is a non-empty all-digit string (`\d+`, ASCII fragment). -/
def isDigits (s : PyStr) : Bool := !s.isEmpty && s.all Char.isDigit

namespace db

/-- Tail of the placeholder-title pattern after `[Pp]`:
`(age|\.) \d+` from `input_is_replaceable`'s regular expression. -/
def pageTail (s : PyStr) : Bool :=
  if ("age ".toList).isPrefixOf s then isDigits (s.drop 4)
  else if (". ".toList).isPrefixOf s then isDigits (s.drop 2)
  else false

/-- `[Pp](age|\.) \d+` -/
def pagePattern : PyStr → Bool
  | [] => false
  | c :: rest => (c = 'P' || c = 'p') && pageTail rest

/-- The alternation `([Pp](age|\.) \d+|[Ff]ront|[Bb]ack)` matched against
the whole string. -/
def coreMatch (s : PyStr) : Bool :=
  pagePattern s || s == "Front".toList || s == "front".toList
    || s == "Back".toList || s == "back".toList

/-- In Python's `re`, `$` (without `re.MULTILINE`) matches at the end of the
string or just before one final newline; matching `^...$` against `title`
therefore matches `core` against `title` with at most one trailing newline
removed. -/
def stripFinalNl (s : PyStr) : PyStr :=
  if s.getLast? = some '\n' then s.dropLast else s

/-- `input_is_replaceable(title)` from `arkimedes/db.py`:
`bool(re.compile(r"(^([Pp](age|\.) \d+|[Ff]ront|[Bb]ack)$|^$)").match(title))`. -/
def input_is_replaceable (title : PyStr) : Bool :=
  coreMatch (stripFinalNl title) || (stripFinalNl title).isEmpty

end db

/-- Dynamically typed Python values held by record attributes. -/
inductive PyVal where
  | str : PyStr → PyVal
  | int : Int → PyVal
  | bool : Bool → PyVal
  | none : PyVal
deriving DecidableEq

/-- Python numeric view: `bool` is a subtype of `int`. -/
def PyVal.toNum : PyVal → Option Int
  | .int n => some n
  | .bool b => some (if b then 1 else 0)
  | _ => Option.none

/-- Equality as applied by the cache queries: string/string compares text,
numeric values (ints and bools) compare numerically, `None` only equals
`None` (SQLAlchemy renders `column == None` as `IS NULL`), and mixed
string/numeric comparisons fail. -/
def pyEq : PyVal → PyVal → Bool
  | .str a, .str b => a == b
  | .none, .none => true
  | a, b =>
    match a.toNum, b.toNum with
    | some x, some y => x == y
    | _, _ => false

deriving instance DecidableEq for Except

namespace db

/-- A row of the `arks` table (`class Ark` in `arkimedes/db.py`).  Columns
are dynamically typed; a freshly constructed `Ark()` has every attribute
`None`. -/
structure Ark where
  ark : PyVal := .none
  target : PyVal := .none
  profile : PyVal := .none
  status : PyVal := .none
  owner : PyVal := .none
  ownergroup : PyVal := .none
  created : PyVal := .none
  updated : PyVal := .none
  export_ : PyVal := .none
  dc_creator : PyVal := .none
  dc_title : PyVal := .none
  dc_type : PyVal := .none
  dc_date : PyVal := .none
  dc_publisher : PyVal := .none
  erc_when : PyVal := .none
  erc_what : PyVal := .none
  erc_who : PyVal := .none
  replaceable : PyVal := .none
deriving DecidableEq

/-- The columns used as `filter_col` arguments of `find`. -/
inductive ArkCol where
  | ark
  | target
  | replaceable
deriving DecidableEq

def colGet : ArkCol → Ark → PyVal
  | .ark, r => r.ark
  | .target, r => r.target
  | .replaceable, r => r.replaceable

/-- `find(filter_col, filter)`: the rows whose column equals the filter, in
table (insertion) order — the query carries no ORDER BY. -/
def find (filter_col : ArkCol) (filter : PyVal) (table : List Ark) : List Ark :=
  table.filter (fun r => pyEq (colGet filter_col r) filter)

def find_ark (ark : PyVal) (table : List Ark) : List Ark :=
  find .ark ark table

def find_replaceable (table : List Ark) : List Ark :=
  find .replaceable (.bool true) table

def find_url (url : PyVal) (table : List Ark) : List Ark :=
  find .target url table

/-- `url_is_in_db(url) = bool(find_url(url).first())`. -/
def url_is_in_db (url : PyVal) (table : List Ark) : Bool :=
  ((find_url url table).head?).isSome

/-- Key normalization in `update_db_record`:
`key.replace("iastate.", "").replace("_", "").replace(".", "_")`. -/
def normalizeKey (k : PyStr) : PyStr :=
  pyReplace ".".toList "_".toList
    (pyReplace "_".toList [] (pyReplace "iastate.".toList [] k))

/-- `setattr(record, key, value)`: a mapped column is updated; any other
attribute name only sets a transient Python attribute, which the commit
does not persist. -/
def setField (r : Ark) (k : PyStr) (v : PyVal) : Ark :=
  if k = "ark".toList then { r with ark := v }
  else if k = "target".toList then { r with target := v }
  else if k = "profile".toList then { r with profile := v }
  else if k = "status".toList then { r with status := v }
  else if k = "owner".toList then { r with owner := v }
  else if k = "ownergroup".toList then { r with ownergroup := v }
  else if k = "created".toList then { r with created := v }
  else if k = "updated".toList then { r with updated := v }
  else if k = "export".toList then { r with export_ := v }
  else if k = "dc_creator".toList then { r with dc_creator := v }
  else if k = "dc_title".toList then { r with dc_title := v }
  else if k = "dc_type".toList then { r with dc_type := v }
  else if k = "dc_date".toList then { r with dc_date := v }
  else if k = "dc_publisher".toList then { r with dc_publisher := v }
  else if k = "erc_when".toList then { r with erc_when := v }
  else if k = "erc_what".toList then { r with erc_what := v }
  else if k = "erc_who".toList then { r with erc_who := v }
  else if k = "replaceable".toList then { r with replaceable := v }
  else r

/-- Committing the mutation of the row object found by the query replaces
that row — the first one matching — in the table. -/
def replaceFirst (p : Ark → Bool) (v : Ark) : List Ark → List Ark
  | [] => []
  | r :: rest => if p r then v :: rest else r :: replaceFirst p v rest

/-- The merge loop of `update_db_record`: `setattr` each normalized key
of the mapping on the row object, in order. -/
def mergeRow (r0 : Ark) (ark_dict : List (PyStr × PyVal)) : Ark :=
  ark_dict.foldl (fun r kv => setField r (normalizeKey kv.1) kv.2) r0

/-- A value SQLAlchemy's `Boolean` type accepts in bind processing at
flush: `None`, a `bool`, or the ints `0`/`1`.  Anything else — in
particular a wire string such as `"True"` or `"no"` — raises before the
UPDATE is issued. -/
def boolBindOk : PyVal → Bool
  | .none => true
  | .bool _ => true
  | .int n => n == 0 || n == 1
  | .str _ => false

/-- `update_db_record(ark, ark_dict)`: find the row by ARK (`.first()`),
`setattr` each normalized key, then commit.  When no row matches, `record`
is `None` and the first `setattr` raises `AttributeError` (an empty
mapping skips the loop, and the commit of the unchanged session
succeeds).  The commit of a merged row can itself raise: a non-boolean
value bound to the Boolean columns (`export`, `replaceable`) fails in the
type's bind processing, and moving `ark` onto a key another row holds
violates the primary-key constraint (`IntegrityError`); either aborts the
update with no change to the table. -/
def update_db_record (ark : PyStr) (ark_dict : List (PyStr × PyVal))
    (table : List Ark) : Except Unit (List Ark) :=
  match (find_ark (.str ark) table).head? with
  | Option.none => if ark_dict = [] then .ok table else .error ()
  | some r0 =>
    let r' := mergeRow r0 ark_dict
    let table' := replaceFirst (fun r => pyEq r.ark (.str ark)) r' table
    if boolBindOk r'.export_ && boolBindOk r'.replaceable then
      if (table'.filter (fun row => pyEq row.ark r'.ark)).length ≤ 1 then
        .ok table'
      else .error ()
    else .error ()

/-- `add_to_db(ark_obj)`: `session.add` + commit; inserting a duplicate
primary key raises `IntegrityError`.  Its only caller inserts rows built
by `from_anvl`, whose Boolean columns are always the ints 0/1, so the
Boolean bind processing cannot fail on this path. -/
def add_to_db (ark_obj : Ark) (table : List Ark) : Except Unit (List Ark) :=
  if table.any (fun r => pyEq r.ark ark_obj.ark) then .error ()
  else .ok (table ++ [ark_obj])

/-- One `l.split(":", 1)` entry of `from_anvl`'s dict comprehension: a line
without a colon makes `p[1]` raise `IndexError`; a line whose text before
the first colon strips to the empty string is stored under the reserved
key `success` with value `p[1][2:].strip()`. -/
def from_anvl_pair (l : PyStr) : Except Unit (PyStr × PyStr) :=
  match splitFirstColon l with
  | Option.none => .error ()
  | some (k, v) =>
    if pyStrip k = [] then .ok ("success".toList, pyStrip (v.drop 2))
    else .ok (pyStrip k, pyStrip v)

def buildDict : List PyStr → List (PyStr × PyStr) →
    Except Unit (List (PyStr × PyStr))
  | [], d => .ok d
  | l :: rest, d => do
    let p ← from_anvl_pair l
    buildDict rest (dictInsert p.1 p.2 d)

/-- The dict comprehension of `Ark.from_anvl`, over the non-empty lines. -/
def from_anvl_dict (anvl_string : PyStr) : Except Unit (List (PyStr × PyStr)) :=
  buildDict ((splitLines anvl_string).filter (fun l => !l.isEmpty)) []

def natOfDigits (ds : PyStr) : Nat :=
  ds.foldl (fun n c => n * 10 + (c.toNat - 48)) 0

/-- Python `int(s)` on a string: optional sign and decimal digits after
stripping whitespace; anything else raises `ValueError`. -/
def pyIntOfStr (s : PyStr) : Except Unit Int :=
  match pyStrip s with
  | '-' :: ds => if isDigits ds then .ok (-(natOfDigits ds : Int)) else .error ()
  | '+' :: ds => if isDigits ds then .ok ((natOfDigits ds : Int)) else .error ()
  | ds => if isDigits ds then .ok ((natOfDigits ds : Int)) else .error ()

def getStrD (d : List (PyStr × PyStr)) (k dflt : PyStr) : PyStr :=
  (dictGet d k).getD dflt

/-- `Ark.from_anvl(anvl_string)`: populate every column from the parsed
dictionary. -/
def from_anvl (anvl_string : PyStr) : Except Unit Ark := do
  let d ← from_anvl_dict anvl_string
  let created ← match dictGet d "_created".toList with
    | Option.none => Except.ok (0 : Int)
    | some s => pyIntOfStr s
  let updated ← match dictGet d "_updated".toList with
    | Option.none => Except.ok (0 : Int)
    | some s => pyIntOfStr s
  Except.ok {
    ark := .str (getStrD d "success".toList []),
    target := .str (getStrD d "_target".toList []),
    profile := .str (getStrD d "_profile".toList []),
    status := .str (getStrD d "_status".toList []),
    owner := .str (getStrD d "_owner".toList []),
    ownergroup := .str (getStrD d "_ownergroup".toList []),
    created := .int created,
    updated := .int updated,
    export_ := .int (if dictGet d "_export".toList = some "no".toList then 0 else 1),
    dc_creator := .str (getStrD d "dc.creator".toList []),
    dc_title := .str (getStrD d "dc.title".toList []),
    dc_type := .str (getStrD d "dc.type".toList []),
    dc_date := .str (getStrD d "dc.date".toList []),
    dc_publisher := .str (getStrD d "dc.publisher".toList []),
    erc_when := .str (getStrD d "erc.when".toList []),
    erc_what := .str (getStrD d "erc.what".toList []),
    erc_who := .str (getStrD d "erc.who".toList []),
    replaceable := .int
      (if dictGet d "iastate.replaceable".toList = some "True".toList
          || input_is_replaceable (getStrD d "dc.title".toList "NOT REPLACEABLE".toList)
        then 1 else 0) }

end db

namespace ezid

/-- `anvl_to_dict` from `arkimedes/ezid.py`: every line either carries the
`::` identifier marker (stored under the reserved key `ark`, value
`line[3:]`) or is split at its first colon; a line without a colon — an
empty line included — raises `ValueError` on unpacking. -/
def anvl_to_dict_lines : List PyStr → List (PyStr × PyStr) →
    Except Unit (List (PyStr × PyStr))
  | [], d => .ok d
  | line :: rest, d =>
    if ("::".toList).isPrefixOf line then
      anvl_to_dict_lines rest (dictInsert "ark".toList (line.drop 3) d)
    else
      match splitFirstColon line with
      | Option.none => .error ()
      | some (k, v) => anvl_to_dict_lines rest (dictInsert (pyStrip k) (pyStrip v) d)

def anvl_to_dict (anvl : PyStr) : Except Unit (List (PyStr × PyStr)) :=
  anvl_to_dict_lines (splitLines anvl) []

/-- `get_value_from_anvl_string(field, anvl) = anvl_to_dict(anvl).get(field)`. -/
def get_value_from_anvl_string (field anvl : PyStr) : Except Unit (Option PyStr) :=
  (anvl_to_dict anvl).map (fun d => dictGet d field)

end ezid

/-- The fresh identifier the registry assigns to the `n`-th mint against a
shoulder. -/
def mkArk (shoulder : PyStr) (n : Nat) : PyStr :=
  shoulder ++ (toString n).toList

/-- Model of the remote EZID registry (external collaborator), happy path:
minting stores the submitted metadata under a fresh identifier and answers
`success: <identifier>`; updating overwrites the stored metadata; viewing
answers `success: <identifier>` followed by the stored metadata lines. -/
structure Registry where
  nextId : Nat
  stored : List (PyStr × PyStr)
deriving DecidableEq

def successMarker : PyStr := "success: ".toList

def Registry.mintResp (reg : Registry) (shoulder anvl : PyStr) :
    PyStr × Registry :=
  let ark := mkArk shoulder reg.nextId
  (successMarker ++ ark,
   { nextId := reg.nextId + 1, stored := dictInsert ark anvl reg.stored })

def Registry.updateResp (reg : Registry) (ark anvl : PyStr) : PyStr × Registry :=
  (successMarker ++ ark, { reg with stored := dictInsert ark anvl reg.stored })

def Registry.viewResp (reg : Registry) (ark : PyStr) : PyStr :=
  match dictGet reg.stored ark with
  | some anvl => successMarker ++ ark ++ '\n' :: anvl
  | Option.none => "error: bad request - no such identifier".toList

/-- A POST against the registry (the audit log of write operations). -/
inductive RegWrite where
  | mint (shoulder anvl : PyStr)
  | update (ark anvl : PyStr)
deriving DecidableEq

/-- The mutable state a submission touches: the local cache (`arks` table),
the remote registry, and the log of registry writes issued so far. -/
structure World where
  db : List db.Ark
  reg : Registry
  writes : List RegWrite
deriving DecidableEq

namespace ezid

/-- `upload_anvl` from `arkimedes/ezid.py`: POST to the shoulder endpoint
(mint) or the identifier endpoint (update) and return `r.text[9:]`
unconditionally.  Any other action leaves `request_url` unbound
(`UnboundLocalError`). -/
def upload_anvl (shoulder anvl action : PyStr) (w : World) :
    Except Unit (PyStr × World) :=
  if action = "mint".toList then
    let p := w.reg.mintResp shoulder anvl
    .ok (p.1.drop 9,
      { w with reg := p.2, writes := w.writes ++ [.mint shoulder anvl] })
  else if action = "update".toList then
    let p := w.reg.updateResp shoulder anvl
    .ok (p.1.drop 9,
      { w with reg := p.2, writes := w.writes ++ [.update shoulder anvl] })
  else .error ()

/-- `view_anvl`: an authenticated GET — no registry write, no state
change; returns `r.text`. -/
def view_anvl (ark : PyStr) (w : World) : PyStr :=
  w.reg.viewResp ark

end ezid

namespace arkimedes

/-- The command-line arguments `submit_md` consults. -/
structure Args where
  action : PyStr
  target : PyStr
  reuse : Bool

/-- `add_ark_to_db(args, ark, anvl)`: fetch the freshly assigned record via
`view_anvl`, parse it with `Ark.from_anvl`, and insert it. -/
def add_ark_to_db (ark : PyStr) (w : World) : Except Unit World := do
  let ezid_anvl := ezid.view_anvl ark w
  let ark_obj ← db.from_anvl ezid_anvl
  let table ← db.add_to_db ark_obj w.db
  Except.ok { w with db := table }

def strPairs (d : List (PyStr × PyStr)) : List (PyStr × PyVal) :=
  d.map (fun kv => (kv.1, PyVal.str kv.2))

/-- `upload(args, anvl, action)`: call `upload_anvl`; a mint inserts the
full record fetched back from the registry, an update merges the submitted
fields into the cache row. -/
def upload (args : Args) (anvl action : PyStr) (w : World) :
    Except Unit (PyStr × World) := do
  let p ← ezid.upload_anvl args.target anvl action w
  if action = "mint".toList then
    let w2 ← add_ark_to_db p.1 p.2
    Except.ok (p.1, w2)
  else
    let anvl_dict ← ezid.anvl_to_dict anvl
    let table ← db.update_db_record p.1 (strPairs anvl_dict) p.2.db
    Except.ok (p.1, { p.2 with db := table })

/-- What a submission reports to the operator. -/
inductive Outcome where
  | minted (ark : PyStr)
  | updated (ark : PyStr)
  | duplicate (ark : PyVal)
  | reused (ark : PyStr)
deriving DecidableEq

/-- `args.target = replaceable.ark` followed by its use in the request URL:
a non-string value would make the URL join raise `TypeError`. -/
def asStr : PyVal → Except Unit PyStr
  | .str s => .ok s
  | _ => .error ()

/-- `submit_md(args, anvl)` from `arkimedes.py`: update bypasses dedup;
otherwise the target URL is extracted and checked against the cache
(duplicate ⇒ notice, no write); with `--reuse` the first replaceable row is
claimed by an update whose commit then clears the replaceable flag;
otherwise a fresh mint is issued. -/
def submit_md (args : Args) (anvl : PyStr) (w : World) :
    Except Unit (Outcome × World) := do
  if args.action = "update".toList then
    let p ← upload args anvl "update".toList w
    Except.ok (.updated p.1, p.2)
  else
    let urlOpt ← ezid.get_value_from_anvl_string "_target".toList anvl
    let url : PyVal := match urlOpt with
      | some s => .str s
      | Option.none => .none
    if db.url_is_in_db url w.db then
      match (db.find_url url w.db).head? with
      | some ark_obj => Except.ok (.duplicate ark_obj.ark, w)
      | Option.none => Except.error ()
    else
      if args.reuse then
        match (db.find_replaceable w.db).head? with
        | some replaceable => do
          let a ← asStr replaceable.ark
          let p ← upload { args with target := a } anvl "update".toList w
          let table ← db.update_db_record a
            [("iastate.replaceable".toList, PyVal.bool false)] p.2.db
          Except.ok (.reused p.1, { p.2 with db := table })
        | Option.none => do
          let p ← upload args anvl "mint".toList w
          Except.ok (.minted p.1, p.2)
      else do
        let p ← upload args anvl "mint".toList w
        Except.ok (.minted p.1, p.2)

/-- Number of mint POSTs in a write log. -/
def mintCount (ws : List RegWrite) : Nat :=
  (ws.filter (fun wr => match wr with | .mint _ _ => true | _ => false)).length

end arkimedes

/-- Python's `"\n".join(pieces)`. -/
def joinNl : List PyStr → PyStr
  | [] => []
  | [l] => l
  | l :: ls => l ++ '\n' :: joinNl ls

/-- `"\n\n".join(records)` — the blank-line joining of records named by the
multi-record claims. -/
def joinBlank : List PyStr → PyStr
  | [] => []
  | [r] => r
  | r :: rs => r ++ '\n' :: '\n' :: joinBlank rs

/-- The string holds two consecutive newline characters. -/
def hasNN : PyStr → Bool
  | [] => false
  | [_] => false
  | c1 :: c2 :: rest => (c1 = '\n' && c2 = '\n') || hasNN (c2 :: rest)

/-- Neither end of the string is a whitespace character (vacuous for the
empty string). -/
def noEdgeSpace (s : PyStr) : Bool :=
  !pyIsSpace (s.headD 'x') && !pyIsSpace (s.getLastD 'x')

namespace ezid2

/-- `anvl_to_dict` from `src/arkimedes/ezid.py` (the rewritten variant):
as the older one, but lines that strip to the empty string are skipped. -/
def anvl_to_dict_lines : List PyStr → List (PyStr × PyStr) →
    Except Unit (List (PyStr × PyStr))
  | [], d => .ok d
  | line :: rest, d =>
    if ("::".toList).isPrefixOf line then
      anvl_to_dict_lines rest (dictInsert "ark".toList (line.drop 3) d)
    else if pyStrip line ≠ [] then
      match splitFirstColon line with
      | Option.none => .error ()
      | some (k, v) => anvl_to_dict_lines rest (dictInsert (pyStrip k) (pyStrip v) d)
    else anvl_to_dict_lines rest d

def anvl_to_dict (anvl : PyStr) : Except Unit (List (PyStr × PyStr)) :=
  anvl_to_dict_lines (splitLines anvl) []

/-- The list comprehension `[anvl_to_dict(a) for a in pieces]`: an
exception from any piece aborts the whole call. -/
def listDecode : List PyStr → Except Unit (List (List (PyStr × PyStr)))
  | [] => .ok []
  | a :: rest => do
    let d ← anvl_to_dict a
    let ds ← listDecode rest
    Except.ok (d :: ds)

/-- `anvls_to_dict(anvls) = [anvl_to_dict(a) for a in anvls.strip().split("\n\n")]`. -/
def anvls_to_dict (anvls : PyStr) : Except Unit (List (List (PyStr × PyStr))) :=
  listDecode (splitBlank (pyStrip anvls))

/-- `build_anvl(anvl_dict) = "\n".join(": ".join((k, anvl_dict[k])) for k in keys)`. -/
def build_anvl (anvl_dict : List (PyStr × PyStr)) : PyStr :=
  joinNl (anvl_dict.map (fun kv => kv.1 ++ ": ".toList ++ kv.2))

/-- A line decodes without an exception: it is an identifier line, or
strip-blank (skipped), or carries a colon to split at. -/
def lineOk (l : PyStr) : Bool :=
  ("::".toList).isPrefixOf l || (pyStrip l).isEmpty || l.contains ':'

/-- A record of a multi-record body is well formed: non-empty, no blank
line inside (no two consecutive newlines), neither end whitespace, and
every line decodes. -/
def wellFormedRecord (r : PyStr) : Bool :=
  !r.isEmpty && !hasNN r && noEdgeSpace r && (splitLines r).all lineOk

/-- An HTTP response as the client sees it: `r.ok` (2xx/3xx status) and
`r.text`. -/
structure Response where
  ok : Bool
  text : PyStr
deriving DecidableEq

/-- `upload_anvl`'s whole handling of the registry response:
`ark = r.text[9:]`, returned unconditionally.  The `Except` codomain
records that no exception is raised on any response — the error branch is
never taken. -/
def upload_anvl_result (r : Response) : Except PyStr PyStr :=
  Except.ok (r.text.drop 9)

/-- Modelled from the spec: the claimed response handling — any non-success
response (non-2xx status, or body not starting with the success marker)
signals `RegistryRejected` carrying the raw body; a success response yields
the identifier obtained by stripping the fixed 9-character marker. -/
def upload_anvl_claimed (r : Response) : Except PyStr PyStr :=
  if r.ok ∧ successMarker.isPrefixOf r.text then Except.ok (r.text.drop 9)
  else Except.error r.text

/-- How `batch_download` reports the poll loop's result: the saved file
name (last path segment of the URL) or a failure naming the URL. -/
inductive DownloadOutcome where
  | saved (fileName : PyStr)
  | failed (url : PyStr)
deriving DecidableEq

/-- `file_name = url[url.rfind("/") + 1:]`. -/
def fileNameOf (url : PyStr) : PyStr :=
  (url.reverse.takeWhile (fun c => c ≠ '/')).reverse

/-- The poll loop of `batch_download` (`while sleep_count < 60`), with
`remaining = 60 - sleep_count`.  `statuses i` is the HTTP status of the
`i`-th GET issued against the download URL, counting from 0; the pre-loop
`requests.get(url)` is attempt 0 (its response is discarded because the
loop always runs), so the loop starts at `idx = 1`.  Returns the total
number of GETs issued and whether a 200 response arrived (file written). -/
def pollFrom (statuses : Nat → Nat) : Nat → Nat → Nat × Bool
  | 0, idx => (idx, false)
  | remaining + 1, idx =>
    if statuses idx = 200 then (idx + 1, true)
    else pollFrom statuses remaining (idx + 1)

/-- `batch_download`'s download phase after a successful request: the
pre-loop GET, the bounded poll loop, and the final report. -/
def batch_download_poll (url : PyStr) (statuses : Nat → Nat) :
    Nat × DownloadOutcome :=
  let p := pollFrom statuses 60 1
  (p.1, if p.2 then .saved (fileNameOf url) else .failed url)

end ezid2

namespace db

/-- Modelled from the spec: the claimed fully case-insensitive placeholder
test — the title matches, case-insensitively, `Page N`, `p. N`, `Front`,
`Back`, or the empty string. -/
def claim_replaceable (title : PyStr) : Bool :=
  let t := title.map Char.toLower
  pagePattern t || t == "front".toList || t == "back".toList || t.isEmpty

/-- The amended reusable-title characterization: after removing at most one
trailing newline, the title is empty, or is a placeholder word with only
its first letter case-insensitive (`Front`/`front`, `Back`/`back`), or is
`Page N`/`page N`/`P. N`/`p. N` with `N` one or more digits. -/
def replaceableAmended (title : PyStr) : Prop :=
  stripFinalNl title = [] ∨
  stripFinalNl title ∈ ["Front".toList, "front".toList, "Back".toList, "back".toList] ∨
  ∃ ds, isDigits ds = true ∧
    (stripFinalNl title = "Page ".toList ++ ds ∨
     stripFinalNl title = "page ".toList ++ ds ∨
     stripFinalNl title = "P. ".toList ++ ds ∨
     stripFinalNl title = "p. ".toList ++ ds)

/-- An unrelated cached row (concrete data for counterexamples). -/
def rowA : Ark :=
  { ark := .str "ark/99999/a1".toList, target := .str "https://lib.example.edu/1".toList,
    created := .int 5, replaceable := .bool true }

/-- A second cached row with the same target and an older `created`. -/
def rowB : Ark :=
  { ark := .str "ark/99999/b2".toList, target := .str "https://lib.example.edu/1".toList,
    created := .int 3, replaceable := .bool true }

end db

/-- A rejected registry response (concrete data for counterexamples). -/
def respFail : ezid2.Response := { ok := false, text := "error: bad".toList }

/-- Concrete witness data: a two-field submission against an empty world. -/
def wArgs : arkimedes.Args :=
  { action := "mint-anvl".toList, target := "ark:/99999/fk4".toList, reuse := false }

def wAnvl : PyStr := "_target: https://lib.example.edu/1\ndc.title: Letters".toList

def wUrl : PyStr := "https://lib.example.edu/1".toList

def wWorld0 : World := { db := [], reg := { nextId := 0, stored := [] }, writes := [] }

/-- The cache row the mint path inserts for `wAnvl` (the parse of the
registry's view response). -/
def wRec : db.Ark :=
  { ark := .str "ark:/99999/fk40".toList, target := .str wUrl,
    profile := .str [], status := .str [], owner := .str [], ownergroup := .str [],
    created := .int 0, updated := .int 0, export_ := .int 1,
    dc_creator := .str [], dc_title := .str "Letters".toList, dc_type := .str [],
    dc_date := .str [], dc_publisher := .str [], erc_when := .str [],
    erc_what := .str [], erc_who := .str [], replaceable := .int 0 }

/-- The world after the first (minting) submission of `wAnvl`. -/
def wWorld1 : World :=
  { db := [wRec],
    reg := { nextId := 1, stored := [("ark:/99999/fk40".toList, wAnvl)] },
    writes := [.mint "ark:/99999/fk4".toList wAnvl] }

/-- Concrete witness data for the reuse flow: the lone replaceable row. -/
def w2Args : arkimedes.Args :=
  { action := "mint-anvl".toList, target := "ark:/99999/fk4".toList, reuse := true }

def w2Row : db.Ark :=
  { ark := .str "ark:/99999/r1".toList, target := .str "https://old/7".toList,
    dc_title := .str "Front".toList, created := .int 1, replaceable := .bool true }

def w2AnvlB : PyStr := "_target: https://lib.example.edu/2\ndc.title: Maps".toList

def w2UrlB : PyStr := "https://lib.example.edu/2".toList

/-- The replaceable row after it has been claimed and overwritten. -/
def w2RowUpd : db.Ark :=
  { w2Row with
    target := .str wUrl,
    dc_title := .str "Letters".toList,
    replaceable := .bool false }

/-- The world after the claiming submission. -/
def w2World1 : World :=
  { db := [w2RowUpd],
    reg := { nextId := 5, stored := [("ark:/99999/r1".toList, wAnvl)] },
    writes := [.update "ark:/99999/r1".toList wAnvl] }

/-- The cache row minted for the second submission. -/
def w2Rec : db.Ark :=
  { ark := .str "ark:/99999/fk45".toList, target := .str w2UrlB,
    profile := .str [], status := .str [], owner := .str [], ownergroup := .str [],
    created := .int 0, updated := .int 0, export_ := .int 1,
    dc_creator := .str [], dc_title := .str "Maps".toList, dc_type := .str [],
    dc_date := .str [], dc_publisher := .str [], erc_when := .str [],
    erc_what := .str [], erc_who := .str [], replaceable := .int 0 }

/-- A row whose target collides with `rowA`'s but which is not
replaceable: the two dedup queries' first matches differ on a table
holding it first. -/
def rowC : db.Ark :=
  { ark := .str "ark/99999/c3".toList,
    target := .str "https://lib.example.edu/1".toList,
    created := .int 9, replaceable := .bool false }

/-- A reuse submission whose record carries the wire field
`iastate.replaceable: True` — a string later bound to the Boolean
column. -/
def w2AnvlBad : PyStr :=
  "_target: https://lib.example.edu/3\niastate.replaceable: True".toList

def w2WorldBad : World :=
  { db := [w2Row], reg := { nextId := 5, stored := [] }, writes := [] }

/-! ### General lemmas -/

theorem isPrefixOf_eq_append {p s : PyStr} (h : p.isPrefixOf s = true) :
    s = p ++ s.drop p.length :=
  (List.prefix_iff_eq_append.mp (List.isPrefixOf_iff_prefix.mp h)).symm

theorem filter_head_first {α : Type} (p : α → Bool) (X Y : List α) (R : α)
    (hX : ∀ r ∈ X, p r = false) (hR : p R = true) :
    ((X ++ R :: Y).filter p).head? = some R := by
  rw [List.filter_append, List.filter_cons_of_pos hR,
    List.filter_eq_nil_iff.mpr (by simpa using hX)]
  rfl

theorem pyEq_str_right {v : PyVal} {a : PyStr} (h : pyEq v (.str a) = true) :
    v = .str a := by
  cases v <;> simp_all [pyEq, PyVal.toNum]

/-! ### C10: the reusable-title heuristic -/

theorem toList_Page : "Page ".toList = 'P' :: "age ".toList := rfl

theorem toList_page : "page ".toList = 'p' :: "age ".toList := rfl

theorem toList_Pdot : "P. ".toList = 'P' :: ". ".toList := rfl

theorem toList_pdot : "p. ".toList = 'p' :: ". ".toList := rfl

theorem toList_age : "age ".toList = ['a', 'g', 'e', ' '] := rfl

theorem toList_dot : ". ".toList = ['.', ' '] := rfl

theorem pageTail_age (ds : PyStr) :
    db.pageTail ('a' :: 'g' :: 'e' :: ' ' :: ds) = isDigits ds := by
  simp [db.pageTail, toList_age, toList_dot, List.isPrefixOf]

theorem pageTail_dot (ds : PyStr) :
    db.pageTail ('.' :: ' ' :: ds) = isDigits ds := by
  simp [db.pageTail, toList_age, toList_dot, List.isPrefixOf]

theorem pagePattern_iff {s : PyStr} :
    db.pagePattern s = true ↔
      ∃ ds, isDigits ds = true ∧
        (s = "Page ".toList ++ ds ∨ s = "page ".toList ++ ds ∨
         s = "P. ".toList ++ ds ∨ s = "p. ".toList ++ ds) := by
  constructor
  · intro h
    cases s with
    | nil => cases h
    | cons c rest =>
      simp only [db.pagePattern, Bool.and_eq_true, Bool.or_eq_true,
        decide_eq_true_eq] at h
      obtain ⟨hc, ht⟩ := h
      unfold db.pageTail at ht
      by_cases h4 : ("age ".toList).isPrefixOf rest = true
      · rw [if_pos h4] at ht
        obtain ⟨ds, hds⟩ : ∃ ds, rest = "age ".toList ++ ds :=
          ⟨_, isPrefixOf_eq_append h4⟩
        subst hds
        refine ⟨List.drop 4 ("age ".toList ++ ds), ht, ?_⟩
        have hdrop : List.drop 4 ("age ".toList ++ ds) = ds := by
          rw [show (4 : Nat) = ("age ".toList).length from rfl, List.drop_left]
        rw [hdrop]
        rcases hc with rfl | rfl
        · exact Or.inl (by rw [toList_Page, List.cons_append])
        · exact Or.inr (Or.inl (by rw [toList_page, List.cons_append]))
      · rw [if_neg h4] at ht
        by_cases h2 : (". ".toList).isPrefixOf rest = true
        · rw [if_pos h2] at ht
          obtain ⟨ds, hds⟩ : ∃ ds, rest = ". ".toList ++ ds :=
            ⟨_, isPrefixOf_eq_append h2⟩
          subst hds
          refine ⟨List.drop 2 (". ".toList ++ ds), ht, ?_⟩
          have hdrop : List.drop 2 (". ".toList ++ ds) = ds := by
            rw [show (2 : Nat) = (". ".toList).length from rfl, List.drop_left]
          rw [hdrop]
          rcases hc with rfl | rfl
          · exact Or.inr (Or.inr (Or.inl (by rw [toList_Pdot, List.cons_append])))
          · exact Or.inr (Or.inr (Or.inr (by rw [toList_pdot, List.cons_append])))
        · rw [if_neg h2] at ht
          cases ht
  · rintro ⟨ds, hds, h | h | h | h⟩ <;> subst h
    · show db.pagePattern ('P' :: 'a' :: 'g' :: 'e' :: ' ' :: ds) = true
      simp [db.pagePattern, pageTail_age, hds]
    · show db.pagePattern ('p' :: 'a' :: 'g' :: 'e' :: ' ' :: ds) = true
      simp [db.pagePattern, pageTail_age, hds]
    · show db.pagePattern ('P' :: '.' :: ' ' :: ds) = true
      simp [db.pagePattern, pageTail_dot, hds]
    · show db.pagePattern ('p' :: '.' :: ' ' :: ds) = true
      simp [db.pagePattern, pageTail_dot, hds]

/-- C10 (amended): `input_is_replaceable` is a pure predicate that holds
exactly when the title, after removal of at most one trailing newline, is
empty, or is `Front`/`front`/`Back`/`back`, or is `Page N`/`page N`/
`P. N`/`p. N` with `N` one or more digits — only the first letter of the
word is case-insensitive. -/
theorem input_is_replaceable_characterization (title : PyStr) :
    db.input_is_replaceable title = true ↔ db.replaceableAmended title := by
  unfold db.input_is_replaceable db.replaceableAmended db.coreMatch
  simp only [Bool.or_eq_true, beq_iff_eq, List.isEmpty_iff, List.mem_cons,
    List.not_mem_nil, or_false, pagePattern_iff]
  constructor
  · intro h
    rcases h with h | he
    · rcases h with h | hb
      · rcases h with h | hB
        · rcases h with h | hf
          · rcases h with hp | hF
            · exact Or.inr (Or.inr hp)
            · exact Or.inr (Or.inl (Or.inl hF))
          · exact Or.inr (Or.inl (Or.inr (Or.inl hf)))
        · exact Or.inr (Or.inl (Or.inr (Or.inr (Or.inl hB))))
      · exact Or.inr (Or.inl (Or.inr (Or.inr (Or.inr hb))))
    · exact Or.inl he
  · intro h
    rcases h with he | hw | hp
    · exact Or.inr he
    · rcases hw with h | h | h | h
      · exact Or.inl (Or.inl (Or.inl (Or.inl (Or.inr h))))
      · exact Or.inl (Or.inl (Or.inl (Or.inr h)))
      · exact Or.inl (Or.inl (Or.inr h))
      · exact Or.inl (Or.inr h)
    · exact Or.inl (Or.inl (Or.inl (Or.inl (Or.inl hp))))

/-- C10 counterexample: the claimed fully case-insensitive reading accepts
`PAGE 3`, but `input_is_replaceable` rejects it — only the first letter of
the placeholder words is case-insensitive in the code's pattern. -/
theorem claim_replaceable_counterexample :
    db.claim_replaceable "PAGE 3".toList = true ∧
    db.input_is_replaceable "PAGE 3".toList = false := by decide

/-! ### C3: registry response handling of mint/update -/

/-- C3 counterexample: on a rejected response (`ok = false`, body not
starting with the success marker) the claim demands a `RegistryRejected`
signal, but `upload_anvl` returns normally (`r.text[9:]`), so the claimed
equivalence fails at this input. -/
theorem upload_anvl_rejects_counterexample :
    ¬ ((∃ e, ezid2.upload_anvl_result respFail = Except.error e) ↔
        ¬(respFail.ok = true ∧ successMarker.isPrefixOf respFail.text = true)) := by
  intro h
  obtain ⟨e, he⟩ := h.mpr (by decide)
  exact absurd he (by simp [ezid2.upload_anvl_result])

/-- C3 (amended): `upload_anvl` never signals rejection — it returns the
response body with its first 9 characters stripped regardless of status;
on a success response (`success: ` followed by the identifier) this yields
the identifier. -/
theorem upload_anvl_returns_drop9 (r : ezid2.Response) (ark : PyStr) :
    (∀ e, ezid2.upload_anvl_result r ≠ Except.error e) ∧
    (r.text = successMarker ++ ark → ezid2.upload_anvl_result r = Except.ok ark) := by
  constructor
  · intro e h
    simp [ezid2.upload_anvl_result] at h
  · intro h
    simp only [ezid2.upload_anvl_result, h, Except.ok.injEq]
    have h9 : successMarker.length = 9 := by decide
    rw [← h9, List.drop_left]

theorem upload_anvl_returns_drop9_witness :
    ezid2.upload_anvl_result { ok := true, text := successMarker ++ "ark/99999/w7".toList } =
      Except.ok ("ark/99999/w7".toList) :=
  (upload_anvl_returns_drop9
    { ok := true, text := successMarker ++ "ark/99999/w7".toList } ("ark/99999/w7".toList)).2 rfl

/-! ### C4: bulk-export polling -/

theorem pollFrom_fail (statuses : Nat → Nat) (h : ∀ i, statuses i ≠ 200) :
    ∀ remaining idx, ezid2.pollFrom statuses remaining idx = (idx + remaining, false) := by
  intro remaining
  induction remaining with
  | zero => intro idx; simp [ezid2.pollFrom]
  | succ n ih =>
    intro idx
    rw [ezid2.pollFrom, if_neg (h idx), ih (idx + 1)]
    simp [Prod.ext_iff]
    omega

theorem pollFrom_success (statuses : Nat → Nat) (m : Nat) (hm : statuses m = 200) :
    ∀ remaining idx, idx ≤ m → m < idx + remaining →
      (∀ i, idx ≤ i → i < m → statuses i ≠ 200) →
      ezid2.pollFrom statuses remaining idx = (m + 1, true) := by
  intro remaining
  induction remaining with
  | zero => intro idx h1 h2 _; omega
  | succ n ih =>
    intro idx h1 h2 hf
    by_cases hidx : statuses idx = 200
    · have hie : idx = m := by
        by_contra hne
        exact hf idx le_rfl (lt_of_le_of_ne h1 hne) hidx
      rw [ezid2.pollFrom, if_pos hidx, hie]
    · rw [ezid2.pollFrom, if_neg hidx]
      have h1' : idx < m := lt_of_le_of_ne h1 (fun e => hidx (e ▸ hm))
      exact ih (idx + 1) h1' (by omega) (fun i hi1 hi2 => hf i (by omega) hi2)

/-- C4 (amended): after a successful export request the code issues one
initial GET whose response is discarded, then up to 60 polling GETs.
Against an endpoint whose first `k` responses (k < 60) are non-200 and 200
afterwards, the download completes after `max (k+1) 2` total GET requests
(the claimed `k+1` for `k ≥ 1`, but 2 when the very first response is
already 200); against an endpoint that never answers 200 it terminates
after 61 total GET requests (1 initial + 60 polls) and reports failure
with the download URL. -/
theorem batch_download_poll_counts :
    (∀ (url : PyStr) (statuses : Nat → Nat) (k : Nat), k < 60 →
        (∀ i, i < k → statuses i ≠ 200) → (∀ i, k ≤ i → statuses i = 200) →
        ezid2.batch_download_poll url statuses =
          (max (k + 1) 2, .saved (ezid2.fileNameOf url))) ∧
    (∀ (url : PyStr) (statuses : Nat → Nat), (∀ i, statuses i ≠ 200) →
        ezid2.batch_download_poll url statuses = (61, .failed url)) := by
  constructor
  · intro url statuses k hk hfail hsucc
    have hm : statuses (max k 1) = 200 := hsucc _ (Nat.le_max_left _ _)
    have hrun := pollFrom_success statuses (max k 1) hm 60 1
      (Nat.le_max_right _ _) (by omega)
      (fun i h1 h2 => hfail i (by omega))
    unfold ezid2.batch_download_poll
    rw [hrun]
    have : max k 1 + 1 = max (k + 1) 2 := by omega
    simp [this]
  · intro url statuses h
    unfold ezid2.batch_download_poll
    rw [pollFrom_fail statuses h 60 1]
    rfl

theorem batch_download_poll_counts_witness :
    ezid2.batch_download_poll "https://ezid.cdlib.org/download/da543b.zip".toList
        (fun i => if i < 3 then 404 else 200) =
      (4, .saved ("da543b.zip".toList)) ∧
    ezid2.batch_download_poll "https://ezid.cdlib.org/download/da543b.zip".toList
        (fun _ => 404) =
      (61, .failed ("https://ezid.cdlib.org/download/da543b.zip".toList)) := by
  constructor
  · have h := batch_download_poll_counts.1
      ("https://ezid.cdlib.org/download/da543b.zip".toList)
      (fun i => if i < 3 then 404 else 200) 3 (by decide)
      (fun i hi => by simp [hi])
      (fun i hi => by simp [Nat.not_lt_of_le hi, Nat.not_lt.mpr hi])
    rw [h]
    decide
  · exact batch_download_poll_counts.2 _ (fun _ => 404) (fun i => by simp)

/-- C4 counterexample: with a stub endpoint that answers 200 from the very
first request (`k = 0`), the claim predicts the file is written after
exactly `k + 1 = 1` GET attempt, but the code issues 2 GETs — the pre-loop
GET plus one polling GET — before writing. -/
theorem batch_download_poll_counterexample :
    ezid2.batch_download_poll "https://ezid.cdlib.org/download/da543b.zip".toList
        (fun _ => 200) =
      (2, .saved ("da543b.zip".toList)) ∧ (2 : Nat) ≠ 0 + 1 := by
  constructor
  · decide
  · decide

/-! ### C7: dedup-relevant cache queries -/

/-- C7 counterexample: with two matching rows where the row inserted first
has the *larger* `created` timestamp, both `find_url(...).first()` and
`find_replaceable().first()` return that first-inserted row, not the row
with the lowest `created` — the queries carry no ORDER BY, so no
oldest-first tie-break exists. -/
theorem find_first_not_oldest_counterexample :
    (db.find_replaceable [db.rowA, db.rowB]).head? = some db.rowA ∧
    db.rowB ∈ db.find_replaceable [db.rowA, db.rowB] ∧
    db.rowA.created = .int 5 ∧ db.rowB.created = .int 3 ∧
    (db.find_url (.str "https://lib.example.edu/1".toList)
      [db.rowA, db.rowB]).head? = some db.rowA ∧
    db.rowB ∈ db.find_url (.str "https://lib.example.edu/1".toList)
      [db.rowA, db.rowB] := by
  decide

/-- C7 (amended): `find_url(url).first()` and `find_replaceable().first()`
each return at most one row, chosen deterministically as the *first
matching row in table insertion order* — not the row with the lowest
`created` timestamp.  The two queries are independent: each conjunct
quantifies over its own decomposition of the table around its own first
match, so they hold even when the first URL match and the first
replaceable match are different rows. -/
theorem find_queries_first_match :
    (∀ (X Y : List db.Ark) (R : db.Ark) (url : PyVal),
      (∀ r ∈ X, pyEq r.target url = false) → pyEq R.target url = true →
      (db.find_url url (X ++ R :: Y)).head? = some R) ∧
    (∀ (X Y : List db.Ark) (R : db.Ark),
      (∀ r ∈ X, pyEq r.replaceable (.bool true) = false) →
      pyEq R.replaceable (.bool true) = true →
      (db.find_replaceable (X ++ R :: Y)).head? = some R) :=
  ⟨fun X Y R url hXu hRu => filter_head_first _ X Y R hXu hRu,
   fun X Y R hXr hRr => filter_head_first _ X Y R hXr hRr⟩

theorem find_queries_first_match_witness :
    (db.find_url (.str "https://lib.example.edu/1".toList)
      ([] ++ rowC :: [w2Row])).head? = some rowC ∧
    (db.find_replaceable ([rowC] ++ w2Row :: [])).head? = some w2Row :=
  ⟨find_queries_first_match.1 [] [w2Row] rowC
      (.str "https://lib.example.edu/1".toList)
      (fun r hr => absurd hr (List.not_mem_nil r)) (by decide),
   find_queries_first_match.2 [rowC] [] w2Row (by decide) (by decide)⟩

/-! ### C8: cache update against an unknown identifier -/

/-- C8 counterexample: updating an identifier that is not in the cache
with an *empty* field mapping succeeds silently — no error is signalled —
because the `setattr` loop body never runs on the `None` query result. -/
theorem update_unknown_empty_counterexample :
    (∀ r ∈ [db.rowA], pyEq r.ark (.str "ark/99999/zz".toList) = false) ∧
    db.update_db_record "ark/99999/zz".toList [] [db.rowA] =
      Except.ok [db.rowA] := by
  decide

/-- C8 (amended): updating an identifier with no cache row signals the
record-not-found error (the `AttributeError` on the `None` record) *for
every non-empty field mapping*, while an empty mapping succeeds silently.
Updating an identifier whose row is found merges the mapping and succeeds
provided the merged row binds only Boolean-acceptable values (None, bool,
0/1) to the `export` and `replaceable` columns and does not move the
`ark` primary key onto a key another row holds; otherwise — a string
bound to a Boolean column, or such a key collision — the commit raises
and the update fails. -/
theorem update_db_record_contract (table : List db.Ark) (a : PyStr)
    (d : List (PyStr × PyVal)) :
    ((∀ r ∈ table, pyEq r.ark (.str a) = false) → d ≠ [] →
      db.update_db_record a d table = Except.error ()) ∧
    ((∀ r ∈ table, pyEq r.ark (.str a) = false) →
      db.update_db_record a [] table = Except.ok table) ∧
    (∀ R, (db.find_ark (.str a) table).head? = some R →
      (db.boolBindOk (db.mergeRow R d).export_ = true →
       db.boolBindOk (db.mergeRow R d).replaceable = true →
       ((db.replaceFirst (fun r => pyEq r.ark (.str a)) (db.mergeRow R d)
          table).filter
          (fun row => pyEq row.ark (db.mergeRow R d).ark)).length ≤ 1 →
       db.update_db_record a d table =
         Except.ok (db.replaceFirst (fun r => pyEq r.ark (.str a))
           (db.mergeRow R d) table)) ∧
      (db.boolBindOk (db.mergeRow R d).export_ = false ∨
       db.boolBindOk (db.mergeRow R d).replaceable = false →
       db.update_db_record a d table = Except.error ()) ∧
      (1 < ((db.replaceFirst (fun r => pyEq r.ark (.str a))
          (db.mergeRow R d) table).filter
          (fun row => pyEq row.ark (db.mergeRow R d).ark)).length →
       db.update_db_record a d table = Except.error ())) := by
  have hnil : (∀ r ∈ table, pyEq r.ark (.str a) = false) →
      db.find_ark (.str a) table = [] := fun h => by
    unfold db.find_ark db.find
    exact List.filter_eq_nil_iff.mpr (by simpa using h)
  refine ⟨?_, ?_, ?_⟩
  · intro h hd
    unfold db.update_db_record
    rw [hnil h]
    simp [hd]
  · intro h
    unfold db.update_db_record
    rw [hnil h]
    rfl
  · intro R hR
    refine ⟨?_, ?_, ?_⟩
    · intro hbE hbR hlen
      unfold db.update_db_record
      rw [hR]
      show (if (db.boolBindOk (db.mergeRow R d).export_ &&
            db.boolBindOk (db.mergeRow R d).replaceable) = true then
          if ((db.replaceFirst (fun r => pyEq r.ark (PyVal.str a))
              (db.mergeRow R d) table).filter
              (fun row => pyEq row.ark (db.mergeRow R d).ark)).length ≤ 1 then
            Except.ok (db.replaceFirst (fun r => pyEq r.ark (PyVal.str a))
              (db.mergeRow R d) table)
          else Except.error ()
        else Except.error ()) = _
      rw [hbE, hbR]
      rw [if_pos (show (true && true) = true from rfl)]
      exact if_pos hlen
    · intro hb
      unfold db.update_db_record
      rw [hR]
      show (if (db.boolBindOk (db.mergeRow R d).export_ &&
            db.boolBindOk (db.mergeRow R d).replaceable) = true then
          if ((db.replaceFirst (fun r => pyEq r.ark (PyVal.str a))
              (db.mergeRow R d) table).filter
              (fun row => pyEq row.ark (db.mergeRow R d).ark)).length ≤ 1 then
            Except.ok (db.replaceFirst (fun r => pyEq r.ark (PyVal.str a))
              (db.mergeRow R d) table)
          else Except.error ()
        else Except.error ()) = _
      rcases hb with hb | hb
      · rw [hb, Bool.false_and]
        exact if_neg (by simp)
      · rw [hb, Bool.and_false]
        exact if_neg (by simp)
    · intro hlen
      unfold db.update_db_record
      rw [hR]
      show (if (db.boolBindOk (db.mergeRow R d).export_ &&
            db.boolBindOk (db.mergeRow R d).replaceable) = true then
          if ((db.replaceFirst (fun r => pyEq r.ark (PyVal.str a))
              (db.mergeRow R d) table).filter
              (fun row => pyEq row.ark (db.mergeRow R d).ark)).length ≤ 1 then
            Except.ok (db.replaceFirst (fun r => pyEq r.ark (PyVal.str a))
              (db.mergeRow R d) table)
          else Except.error ()
        else Except.error ()) = _
      by_cases hb : (db.boolBindOk (db.mergeRow R d).export_ &&
          db.boolBindOk (db.mergeRow R d).replaceable) = true
      · rw [if_pos hb]
        exact if_neg (not_le.mpr hlen)
      · exact if_neg hb

theorem update_db_record_contract_witness :
    db.update_db_record "ark/99999/zz".toList
      [("_target".toList, PyVal.str "https://lib.example.edu/9".toList)]
      [db.rowA] = Except.error () ∧
    db.update_db_record "ark/99999/zz".toList [] [db.rowA] =
      Except.ok [db.rowA] ∧
    db.update_db_record "ark/99999/a1".toList
      [("_target".toList, PyVal.str "https://lib.example.edu/9".toList)]
      [db.rowA] =
      Except.ok (db.replaceFirst
        (fun r => pyEq r.ark (PyVal.str "ark/99999/a1".toList))
        (db.mergeRow db.rowA
          [("_target".toList, PyVal.str "https://lib.example.edu/9".toList)])
        [db.rowA]) ∧
    db.update_db_record "ark/99999/a1".toList
      [("iastate.replaceable".toList, PyVal.str "True".toList)]
      [db.rowA] = Except.error () ∧
    db.update_db_record "ark/99999/a1".toList
      [("ark".toList, PyVal.str "ark/99999/b2".toList)]
      [db.rowA, db.rowB] = Except.error () := by
  refine ⟨?_, ?_, ?_, ?_, ?_⟩
  · exact (update_db_record_contract [db.rowA] ("ark/99999/zz".toList)
      [("_target".toList, PyVal.str "https://lib.example.edu/9".toList)]).1
      (by decide) (by decide)
  · exact (update_db_record_contract [db.rowA] ("ark/99999/zz".toList)
      [("_target".toList,
        PyVal.str "https://lib.example.edu/9".toList)]).2.1 (by decide)
  · exact ((update_db_record_contract [db.rowA] ("ark/99999/a1".toList)
      [("_target".toList, PyVal.str "https://lib.example.edu/9".toList)]).2.2
      db.rowA (by decide)).1 (by decide) (by decide) (by decide)
  · exact ((update_db_record_contract [db.rowA] ("ark/99999/a1".toList)
      [("iastate.replaceable".toList, PyVal.str "True".toList)]).2.2
      db.rowA (by decide)).2.1 (Or.inr (by decide))
  · exact ((update_db_record_contract [db.rowA, db.rowB]
      ("ark/99999/a1".toList)
      [("ark".toList, PyVal.str "ark/99999/b2".toList)]).2.2
      db.rowA (by decide)).2.2 (by decide)

/-! ### C9: identifier immutability under cache updates -/

/-- C9 counterexample: a field mapping obtained by decoding a record that
carries an identifier line (`:: ...`) holds the reserved key `ark`, whose
normalized name is the primary-key attribute; `update_db_record` then
rewrites the row's identifier. -/
theorem update_rewrites_ark_counterexample :
    ezid.anvl_to_dict ":: ark/99999/b2\n_target: https://u".toList =
      Except.ok [("ark".toList, "ark/99999/b2".toList),
                 ("_target".toList, "https://u".toList)] ∧
    db.update_db_record "ark/99999/a1".toList
      (arkimedes.strPairs [("ark".toList, "ark/99999/b2".toList),
                           ("_target".toList, "https://u".toList)])
      [db.rowA] =
      Except.ok [({ db.rowA with
                    ark := .str "ark/99999/b2".toList,
                    target := .str "https://u".toList } : db.Ark)] ∧
    ({ db.rowA with
       ark := .str "ark/99999/b2".toList,
       target := .str "https://u".toList } : db.Ark).ark ≠ db.rowA.ark := by
  decide

set_option maxHeartbeats 1000000 in
theorem setField_ark {r : db.Ark} {k : PyStr} {v : PyVal}
    (h : k ≠ "ark".toList) : (db.setField r k v).ark = r.ark := by
  unfold db.setField
  rw [if_neg h]
  simp only [apply_ite db.Ark.ark, ite_self]

theorem foldl_setField_ark (d : List (PyStr × PyVal))
    (hd : ∀ kv ∈ d, db.normalizeKey kv.1 ≠ "ark".toList) :
    ∀ r : db.Ark,
      (d.foldl (fun r kv => db.setField r (db.normalizeKey kv.1) kv.2) r).ark = r.ark := by
  induction d with
  | nil => intro r; rfl
  | cons kv rest ih =>
    intro r
    rw [List.foldl_cons, ih (fun x hx => hd x (List.mem_cons_of_mem _ hx))]
    exact setField_ark (hd kv (List.mem_cons_self _ _))

theorem map_ark_replaceFirst (p : db.Ark → Bool) (v : db.Ark)
    (h : ∀ r, p r = true → r.ark = v.ark) :
    ∀ l : List db.Ark,
      (db.replaceFirst p v l).map db.Ark.ark = l.map db.Ark.ark := by
  intro l
  induction l with
  | nil => rfl
  | cons r rest ih =>
    unfold db.replaceFirst
    by_cases hr : p r = true
    · simp [hr, h r hr]
    · simp only [Bool.not_eq_true] at hr
      simp [hr, ih]

/-- C9 (amended): `update_db_record` leaves every row's identifier (the
`ark` primary key) unchanged *provided no key of the mapping normalizes to
the reserved attribute name `ark`* — mappings decoded from a record with
an identifier line violate that proviso and can rewrite the key. -/
theorem update_preserves_ark (table table' : List db.Ark) (a : PyStr)
    (d : List (PyStr × PyVal))
    (hd : ∀ kv ∈ d, db.normalizeKey kv.1 ≠ "ark".toList)
    (h : db.update_db_record a d table = Except.ok table') :
    table'.map db.Ark.ark = table.map db.Ark.ark := by
  unfold db.update_db_record at h
  cases hh : (db.find_ark (.str a) table).head? with
  | none =>
    rw [hh] at h
    by_cases hd0 : d = []
    · rw [if_pos hd0] at h
      cases h
      rfl
    · rw [if_neg hd0] at h
      cases h
  | some r0 =>
    rw [hh] at h
    have h' : (if (db.boolBindOk (db.mergeRow r0 d).export_ &&
          db.boolBindOk (db.mergeRow r0 d).replaceable) = true then
        if ((db.replaceFirst (fun r => pyEq r.ark (PyVal.str a))
            (db.mergeRow r0 d) table).filter
            (fun row => pyEq row.ark (db.mergeRow r0 d).ark)).length ≤ 1 then
          Except.ok (db.replaceFirst (fun r => pyEq r.ark (PyVal.str a))
            (db.mergeRow r0 d) table)
        else Except.error ()
      else Except.error ()) = Except.ok table' := h
    split_ifs at h' with hb hc
    · cases h'
      have hr0 : pyEq r0.ark (.str a) = true := by
        cases hfl : db.find_ark (.str a) table with
        | nil => rw [hfl] at hh; cases hh
        | cons x xs =>
          rw [hfl] at hh
          simp only [List.head?_cons, Option.some.injEq] at hh
          subst hh
          have hx : x ∈ db.find_ark (.str a) table := by
            rw [hfl]; exact List.mem_cons_self _ _
          unfold db.find_ark db.find at hx
          exact (List.mem_filter.mp hx).2
      unfold db.mergeRow
      rw [map_ark_replaceFirst]
      intro r hr
      rw [pyEq_str_right hr, foldl_setField_ark d hd r0, pyEq_str_right hr0]

theorem update_preserves_ark_witness :
    [({ db.rowA with
        target := PyVal.str "https://lib.example.edu/9".toList } : db.Ark),
     db.rowB].map db.Ark.ark = [db.rowA, db.rowB].map db.Ark.ark :=
  update_preserves_ark [db.rowA, db.rowB]
    [({ db.rowA with
        target := PyVal.str "https://lib.example.edu/9".toList } : db.Ark),
     db.rowB]
    ("ark/99999/a1".toList)
    [("_target".toList, PyVal.str "https://lib.example.edu/9".toList)]
    (by decide) (by decide)

/-! ### String lemmas for the codec claims -/

theorem dropWhile_eq_self_of_head {p : Char → Bool} {s : PyStr}
    (h : ∀ c, s.head? = some c → p c = false) : s.dropWhile p = s := by
  cases s with
  | nil => rfl
  | cons c t => rw [List.dropWhile_cons, if_neg (by simp [h c rfl])]

theorem pyStripLeft_eq_self {s : PyStr}
    (h : ∀ c, s.head? = some c → pyIsSpace c = false) : pyStripLeft s = s :=
  dropWhile_eq_self_of_head h

theorem pyStripRight_eq_self {s : PyStr}
    (h : ∀ c, s.getLast? = some c → pyIsSpace c = false) : pyStripRight s = s := by
  unfold pyStripRight
  rw [dropWhile_eq_self_of_head (by simpa [List.head?_reverse] using h),
    List.reverse_reverse]

theorem pyStrip_eq_self {s : PyStr}
    (h1 : ∀ c, s.head? = some c → pyIsSpace c = false)
    (h2 : ∀ c, s.getLast? = some c → pyIsSpace c = false) : pyStrip s = s := by
  unfold pyStrip
  rw [pyStripRight_eq_self h2, pyStripLeft_eq_self h1]

theorem noEdgeSpace_head {s : PyStr} (h : noEdgeSpace s = true) :
    ∀ c, s.head? = some c → pyIsSpace c = false := by
  intro c hc
  unfold noEdgeSpace at h
  simp only [Bool.and_eq_true, Bool.not_eq_true'] at h
  cases s with
  | nil => cases hc
  | cons a t =>
    simp only [List.head?_cons, Option.some.injEq] at hc
    subst hc
    exact h.1

theorem noEdgeSpace_getLast {s : PyStr} (h : noEdgeSpace s = true) :
    ∀ c, s.getLast? = some c → pyIsSpace c = false := by
  intro c hc
  unfold noEdgeSpace at h
  simp only [Bool.and_eq_true, Bool.not_eq_true'] at h
  rw [List.getLastD_eq_getLast?, hc] at h
  exact h.2

theorem pyStrip_noEdge {s : PyStr} (h : noEdgeSpace s = true) : pyStrip s = s :=
  pyStrip_eq_self (noEdgeSpace_head h) (noEdgeSpace_getLast h)

theorem pyStrip_space_cons {v : PyStr} (hv : noEdgeSpace v = true) :
    pyStrip (' ' :: v) = v := by
  cases v with
  | nil => decide
  | cons a t =>
    unfold pyStrip
    rw [pyStripRight_eq_self (fun c hc => by
      rw [List.getLast?_cons_cons] at hc
      exact noEdgeSpace_getLast hv c hc)]
    unfold pyStripLeft
    rw [List.dropWhile_cons, if_pos (by decide)]
    exact dropWhile_eq_self_of_head (noEdgeSpace_head hv)

theorem pyStripRight_head {c : Char} {rest : PyStr} (h : pyIsSpace c = false) :
    ∃ t, pyStripRight (c :: rest) = c :: t := by
  have hne : pyStripRight (c :: rest) ≠ [] := by
    unfold pyStripRight
    intro he
    rw [List.reverse_eq_nil_iff] at he
    have := List.dropWhile_eq_nil_iff.mp he c (by simp)
    rw [h] at this
    cases this
  have hpfx : pyStripRight (c :: rest) <+: (c :: rest) := by
    rw [← List.reverse_suffix]
    unfold pyStripRight
    rw [List.reverse_reverse]
    exact List.dropWhile_suffix _
  obtain ⟨u, hu⟩ := hpfx
  cases hs : pyStripRight (c :: rest) with
  | nil => exact absurd hs hne
  | cons d t =>
    rw [hs, List.cons_append] at hu
    injection hu with h1 _
    subst h1
    exact ⟨t, rfl⟩

theorem pyStrip_cons_ne_nil {c : Char} {rest : PyStr} (h : pyIsSpace c = false) :
    pyStrip (c :: rest) ≠ [] := by
  obtain ⟨t, ht⟩ := @pyStripRight_head c rest h
  unfold pyStrip
  rw [ht]
  unfold pyStripLeft
  rw [List.dropWhile_cons, if_neg (by simp [h])]
  simp

theorem toList_colons : "::".toList = [':', ':'] := rfl

theorem not_prefix_colons {c : Char} (rest : PyStr) (h : c ≠ ':') :
    ("::".toList).isPrefixOf (c :: rest) = false := by
  rw [toList_colons]
  simp only [List.isPrefixOf, Bool.and_eq_false_iff]
  left
  exact beq_eq_false_iff_ne.mpr (Ne.symm h)

theorem splitFirstColon_append {k : PyStr} (w : PyStr) (h : ':' ∉ k) :
    splitFirstColon (k ++ ':' :: w) = some (k, w) := by
  induction k with
  | nil => simp [splitFirstColon]
  | cons c k' ih =>
    have hc : c ≠ ':' := fun e => h (e ▸ List.mem_cons_self c k')
    rw [List.cons_append]
    show (if c = ':' then some ([], k' ++ ':' :: w)
      else (splitFirstColon (k' ++ ':' :: w)).map (fun p => (c :: p.1, p.2))) = _
    rw [if_neg hc, ih (fun hm => h (List.mem_cons_of_mem _ hm))]
    rfl

theorem dictInsert_append {α : Type} (k : PyStr) (v : α) (acc : List (PyStr × α))
    (h : ∀ p ∈ acc, p.1 ≠ k) : dictInsert k v acc = acc ++ [(k, v)] := by
  unfold dictInsert
  rw [if_neg]
  simp only [List.any_eq_true, beq_iff_eq, not_exists]
  intro p
  simp only [not_and]
  exact fun hp => h p hp

theorem splitLines_no_nl {l : PyStr} (h : '\n' ∉ l) : splitLines l = [l] := by
  induction l with
  | nil => rfl
  | cons c t ih =>
    show (if c = '\n' then [] :: splitLines t else consHead c (splitLines t)) = _
    rw [if_neg (fun e => h (List.mem_cons.mpr (Or.inl e.symm))),
      ih (fun hm => h (List.mem_cons_of_mem _ hm))]
    rfl

theorem splitLines_append_nl {l : PyStr} (t : PyStr) (h : '\n' ∉ l) :
    splitLines (l ++ '\n' :: t) = l :: splitLines t := by
  induction l with
  | nil =>
    show (if '\n' = '\n' then [] :: splitLines t else _) = _
    rw [if_pos rfl]
  | cons c l' ih =>
    rw [List.cons_append]
    show (if c = '\n' then [] :: splitLines (l' ++ '\n' :: t)
      else consHead c (splitLines (l' ++ '\n' :: t))) = _
    rw [if_neg (fun e => h (List.mem_cons.mpr (Or.inl e.symm))),
      ih (fun hm => h (List.mem_cons_of_mem _ hm))]
    rfl

theorem splitLines_joinNl {ls : List PyStr} (hne : ls ≠ [])
    (h : ∀ l ∈ ls, '\n' ∉ l) : splitLines (joinNl ls) = ls := by
  induction ls with
  | nil => exact absurd rfl hne
  | cons l ls' ih =>
    cases ls' with
    | nil => exact splitLines_no_nl (h l (List.mem_cons_self _ _))
    | cons l2 ls'' =>
      show splitLines (l ++ '\n' :: joinNl (l2 :: ls'')) = _
      rw [splitLines_append_nl _ (h l (List.mem_cons_self _ _)),
        ih (by simp) (fun x hx => h x (List.mem_cons_of_mem _ hx))]

/-! ### C6: codec round-trip -/

theorem anvl_to_dict_lines_build (m : List (PyStr × PyStr))
    (hk : ∀ kv ∈ m, kv.1 ≠ [] ∧ ':' ∉ kv.1 ∧ noEdgeSpace kv.1 = true)
    (hv : ∀ kv ∈ m, noEdgeSpace kv.2 = true)
    (hnd : (m.map Prod.fst).Nodup) :
    ∀ acc, (∀ kv ∈ m, ∀ p ∈ acc, p.1 ≠ kv.1) →
      ezid2.anvl_to_dict_lines (m.map (fun kv => kv.1 ++ ": ".toList ++ kv.2)) acc =
        Except.ok (acc ++ m) := by
  induction m with
  | nil =>
    intro acc _
    simp [ezid2.anvl_to_dict_lines]
  | cons kv m' ih =>
    intro acc hdisj
    obtain ⟨k, v⟩ := kv
    obtain ⟨hk1, hk2, hk3⟩ := hk (k, v) (List.mem_cons_self _ _)
    have hv1 : noEdgeSpace v = true := hv (k, v) (List.mem_cons_self _ _)
    cases k with
    | nil => exact absurd rfl hk1
    | cons c k' =>
      have hc : c ≠ ':' := fun e => hk2 (List.mem_cons.mpr (Or.inl e.symm))
      have hcs : pyIsSpace c = false := noEdgeSpace_head hk3 c rfl
      have hline : ((c :: k') ++ ": ".toList ++ v : PyStr) =
          c :: (k' ++ ':' :: ' ' :: v) := by
        rw [List.append_assoc, List.cons_append]
        rfl
      rw [List.map_cons]
      show ezid2.anvl_to_dict_lines
        (((c :: k') ++ ": ".toList ++ v) :: m'.map _) acc = _
      rw [hline]
      show (if ("::".toList).isPrefixOf (c :: (k' ++ ':' :: ' ' :: v)) = true then _
        else _) = _
      rw [if_neg (by rw [not_prefix_colons _ hc]; exact Bool.false_ne_true)]
      show (if pyStrip (c :: (k' ++ ':' :: ' ' :: v)) ≠ [] then _ else _) = _
      rw [if_pos (pyStrip_cons_ne_nil hcs)]
      have hsplit : splitFirstColon (c :: (k' ++ ':' :: ' ' :: v)) =
          some (c :: k', ' ' :: v) := by
        rw [← List.cons_append]
        exact splitFirstColon_append _ hk2
      rw [hsplit]
      show ezid2.anvl_to_dict_lines (m'.map _)
        (dictInsert (pyStrip (c :: k')) (pyStrip (' ' :: v)) acc) = _
      rw [pyStrip_noEdge hk3, pyStrip_space_cons hv1,
        dictInsert_append _ _ _ (fun p hp => hdisj (c :: k', v)
          (List.mem_cons_self _ _) p hp)]
      have hknotin : (c :: k') ∉ m'.map Prod.fst := by
        simp only [List.map_cons, List.nodup_cons] at hnd
        exact hnd.1
      rw [ih (fun x hx => hk x (List.mem_cons_of_mem _ hx))
        (fun x hx => hv x (List.mem_cons_of_mem _ hx))
        (by simp only [List.map_cons, List.nodup_cons] at hnd; exact hnd.2)
        (acc ++ [(c :: k', v)])
        (fun x hx p hp => by
          rcases List.mem_append.mp hp with hp1 | hp2
          · exact hdisj x (List.mem_cons_of_mem _ hx) p hp1
          · rcases List.mem_singleton.mp hp2 with rfl
            intro he
            have he' : (c :: k' : PyStr) = x.1 := he
            exact hknotin (by rw [he']; exact List.mem_map_of_mem Prod.fst hx))]
      rw [List.append_assoc]
      rfl

/-- C6 (amended): for every field mapping whose keys are distinct,
non-empty, contain no colon and no newline and carry no leading or
trailing whitespace, and whose values contain no newline and carry no
leading or trailing whitespace, `anvl_to_dict (build_anvl m) = m`, and the
line order of `build_anvl`'s output is exactly the insertion order of
`m`'s fields. -/
theorem build_anvl_round_trip (m : List (PyStr × PyStr))
    (hnd : (m.map Prod.fst).Nodup)
    (hk : ∀ kv ∈ m, kv.1 ≠ [] ∧ ':' ∉ kv.1 ∧ '\n' ∉ kv.1 ∧ noEdgeSpace kv.1 = true)
    (hv : ∀ kv ∈ m, '\n' ∉ kv.2 ∧ noEdgeSpace kv.2 = true) :
    ezid2.anvl_to_dict (ezid2.build_anvl m) = Except.ok m ∧
    (m ≠ [] → splitLines (ezid2.build_anvl m) =
      m.map (fun kv => kv.1 ++ ": ".toList ++ kv.2)) := by
  have hlines : ∀ l ∈ m.map (fun kv => kv.1 ++ ": ".toList ++ kv.2), '\n' ∉ l := by
    intro l hl
    simp only [List.mem_map] at hl
    obtain ⟨kv, hkv, rfl⟩ := hl
    intro hmem
    rcases List.mem_append.mp hmem with h1 | h2
    · rcases List.mem_append.mp h1 with h3 | h4
      · exact (hk kv hkv).2.2.1 h3
      · exact absurd h4 (by decide)
    · exact (hv kv hkv).1 h2
  cases m with
  | nil => exact ⟨by decide, fun hne => absurd rfl hne⟩
  | cons kv0 m' =>
    have hsplit : splitLines (ezid2.build_anvl (kv0 :: m')) =
        (kv0 :: m').map (fun kv => kv.1 ++ ": ".toList ++ kv.2) := by
      unfold ezid2.build_anvl
      exact splitLines_joinNl (by simp) hlines
    refine ⟨?_, fun _ => hsplit⟩
    unfold ezid2.anvl_to_dict
    rw [hsplit]
    have := anvl_to_dict_lines_build (kv0 :: m')
      (fun x hx => ⟨(hk x hx).1, (hk x hx).2.1, (hk x hx).2.2.2⟩)
      (fun x hx => (hv x hx).2) hnd [] (fun x _ p hp => absurd hp (List.not_mem_nil p))
    simpa using this

theorem build_anvl_round_trip_witness :
    ezid2.anvl_to_dict (ezid2.build_anvl
      [("dc.title".toList, "Letters".toList),
       ("_target".toList, "https://lib.example.edu/1".toList)]) =
      Except.ok
        [("dc.title".toList, "Letters".toList),
         ("_target".toList, "https://lib.example.edu/1".toList)] ∧
    splitLines (ezid2.build_anvl
      [("dc.title".toList, "Letters".toList),
       ("_target".toList, "https://lib.example.edu/1".toList)]) =
      ["dc.title: Letters".toList, "_target: https://lib.example.edu/1".toList] := by
  have h := build_anvl_round_trip
    [("dc.title".toList, "Letters".toList),
     ("_target".toList, "https://lib.example.edu/1".toList)]
    (by decide) (by decide) (by decide)
  exact ⟨h.1, by rw [h.2 (by decide)]; decide⟩

/-- C6 counterexample: the claim constrains only key non-emptiness and
newline-freedom of values, so the mapping `{"a:b": "c"}` is admissible;
but `decode(encode(m))` splits at the *first* colon of the line
`a:b: c`, yielding `{"a": "b: c"} ≠ m`. -/
theorem round_trip_colon_key_counterexample :
    ezid2.anvl_to_dict (ezid2.build_anvl [("a:b".toList, "c".toList)]) =
      Except.ok [("a".toList, "b: c".toList)] ∧
    [("a".toList, "b: c".toList)] ≠ [("a:b".toList, "c".toList)] := by
  constructor
  · decide
  · decide

/-! ### C5: multi-record decoding -/

theorem wellFormedRecord_parts {r : PyStr} (h : ezid2.wellFormedRecord r = true) :
    r ≠ [] ∧ hasNN r = false ∧ noEdgeSpace r = true ∧
      (splitLines r).all ezid2.lineOk = true := by
  unfold ezid2.wellFormedRecord at h
  simp only [Bool.and_eq_true, Bool.not_eq_true'] at h
  refine ⟨?_, h.1.1.2, h.1.2, h.2⟩
  intro he
  subst he
  cases h.1.1.1

theorem dropWhile_replicate_nl (m : Nat) :
    List.dropWhile pyIsSpace (List.replicate m '\n') = [] := by
  induction m with
  | zero => rfl
  | succ n ih => rw [List.replicate_succ, List.dropWhile_cons, if_pos (by decide)]; exact ih

theorem pyStrip_append_newlines (s : PyStr) (m : Nat)
    (h1 : ∀ c, s.head? = some c → pyIsSpace c = false)
    (h2 : ∀ c, s.getLast? = some c → pyIsSpace c = false) :
    pyStrip (s ++ List.replicate m '\n') = s := by
  unfold pyStrip pyStripRight
  rw [List.reverse_append, List.reverse_replicate, List.dropWhile_append,
    if_pos (by rw [dropWhile_replicate_nl]; rfl),
    dropWhile_eq_self_of_head (by simpa [List.head?_reverse] using h2),
    List.reverse_reverse]
  exact pyStripLeft_eq_self h1

theorem joinBlank_cons_ex (r : PyStr) (rs : List PyStr) :
    ∃ t, joinBlank (r :: rs) = r ++ t := by
  cases rs with
  | nil => exact ⟨[], by simp [joinBlank]⟩
  | cons r2 rs' => exact ⟨'\n' :: '\n' :: joinBlank (r2 :: rs'), rfl⟩

theorem joinBlank_head {records : List PyStr}
    (h : ∀ r ∈ records, ezid2.wellFormedRecord r = true) :
    ∀ c, (joinBlank records).head? = some c → pyIsSpace c = false := by
  intro c hc
  cases records with
  | nil => cases hc
  | cons r rs =>
    obtain ⟨t, ht⟩ := joinBlank_cons_ex r rs
    rw [ht, List.head?_append] at hc
    obtain ⟨hr, -, hns, -⟩ := wellFormedRecord_parts (h r (List.mem_cons_self _ _))
    cases r with
    | nil => exact absurd rfl hr
    | cons a r0 =>
      rw [List.head?_cons] at hc
      rw [show (some a).or t.head? = some a from rfl, Option.some.injEq] at hc
      subst hc
      exact noEdgeSpace_head hns _ rfl

theorem joinBlank_getLast {records : List PyStr}
    (h : ∀ r ∈ records, ezid2.wellFormedRecord r = true) :
    ∀ c, (joinBlank records).getLast? = some c → pyIsSpace c = false := by
  induction records with
  | nil => intro c hc; cases hc
  | cons r rs ih =>
    intro c hc
    cases rs with
    | nil =>
      obtain ⟨-, -, hns, -⟩ := wellFormedRecord_parts (h r (List.mem_cons_self _ _))
      exact noEdgeSpace_getLast hns c (by simpa [joinBlank] using hc)
    | cons r2 rs' =>
      rw [show joinBlank (r :: r2 :: rs') = r ++ '\n' :: '\n' :: joinBlank (r2 :: rs')
          from rfl,
        List.getLast?_append] at hc
      obtain ⟨hr2, -, -, -⟩ :=
        wellFormedRecord_parts (h r2 (List.mem_cons_of_mem _ (List.mem_cons_self _ _)))
      obtain ⟨t, ht⟩ := joinBlank_cons_ex r2 rs'
      cases hr2c : r2 with
      | nil => exact absurd hr2c hr2
      | cons b r2' =>
        rw [ht, hr2c] at hc
        rw [List.cons_append] at hc
        rw [List.getLast?_cons_cons, List.getLast?_cons_cons] at hc
        have hj : ('\n' :: '\n' :: b :: (r2' ++ t)).getLast? = (b :: (r2' ++ t)).getLast? := by
          rw [List.getLast?_cons_cons, List.getLast?_cons_cons]
        have hne2 : (b :: (r2' ++ t)).getLast?.isSome := by
          cases hgl : (b :: (r2' ++ t)).getLast? with
          | none => exact absurd hgl (by simp [List.getLast?_eq_none_iff])
          | some x => rfl
        cases hgl : (b :: (r2' ++ t)).getLast? with
        | none => rw [hgl] at hne2; cases hne2
        | some x =>
          rw [hgl, show (some x).or ((r : PyStr).getLast?) = some x from rfl,
            Option.some.injEq] at hc
          subst hc
          apply ih (fun q hq => h q (List.mem_cons_of_mem _ hq)) x
          rw [ht, hr2c, List.cons_append]
          exact hgl

theorem hasNN_cons {c1 c2 : Char} {rest : PyStr} :
    hasNN (c1 :: c2 :: rest) = ((c1 = '\n' && c2 = '\n') || hasNN (c2 :: rest)) :=
  rfl

theorem splitBlank_single {r : PyStr} (h : hasNN r = false) : splitBlank r = [r] := by
  induction r with
  | nil => rfl
  | cons c1 r' ih =>
    cases r' with
    | nil => rfl
    | cons c2 rest =>
      rw [hasNN_cons, Bool.or_eq_false_iff] at h
      obtain ⟨hand, hrest⟩ := h
      show (if c1 = '\n' ∧ c2 = '\n' then [] :: splitBlank rest
        else consHead c1 (splitBlank (c2 :: rest))) = _
      rw [if_neg (by rintro ⟨rfl, rfl⟩; simp at hand), ih hrest]
      rfl

theorem splitBlank_append {r : PyStr} (t : PyStr) (hnn : hasNN r = false)
    (hlast : r.getLast? ≠ some '\n') :
    splitBlank (r ++ '\n' :: '\n' :: t) = r :: splitBlank t := by
  induction r with
  | nil =>
    show (if ('\n' : Char) = '\n' ∧ ('\n' : Char) = '\n' then [] :: splitBlank t
      else consHead '\n' (splitBlank ('\n' :: t))) = _
    rw [if_pos ⟨rfl, rfl⟩]
  | cons c1 r' ih =>
    cases r' with
    | nil =>
      have hc1 : c1 ≠ '\n' := fun e => hlast (by simp [e])
      show (if c1 = '\n' ∧ ('\n' : Char) = '\n' then [] :: splitBlank ('\n' :: t)
        else consHead c1 (splitBlank ('\n' :: '\n' :: t))) = _
      rw [if_neg (fun hp => hc1 hp.1)]
      show consHead c1 (if ('\n' : Char) = '\n' ∧ ('\n' : Char) = '\n'
        then [] :: splitBlank t else consHead '\n' (splitBlank ('\n' :: t))) = _
      rw [if_pos ⟨rfl, rfl⟩]
      rfl
    | cons c2 r'' =>
      rw [hasNN_cons, Bool.or_eq_false_iff] at hnn
      obtain ⟨hand, hrest⟩ := hnn
      have hlast' : (c2 :: r'').getLast? ≠ some '\n' := by
        rwa [show ((c1 :: c2 :: r'' : PyStr)).getLast? = (c2 :: r'').getLast?
          from List.getLast?_cons_cons] at hlast
      show (if c1 = '\n' ∧ c2 = '\n'
        then [] :: splitBlank (r'' ++ '\n' :: '\n' :: t)
        else consHead c1 (splitBlank ((c2 :: r'') ++ '\n' :: '\n' :: t))) = _
      rw [if_neg (by rintro ⟨rfl, rfl⟩; simp at hand), ih hrest hlast']
      rfl

theorem splitBlank_joinBlank {records : List PyStr} (hne : records ≠ [])
    (h : ∀ r ∈ records, ezid2.wellFormedRecord r = true) :
    splitBlank (joinBlank records) = records := by
  induction records with
  | nil => exact absurd rfl hne
  | cons r rs ih =>
    cases rs with
    | nil =>
      obtain ⟨-, hnn, -, -⟩ := wellFormedRecord_parts (h r (List.mem_cons_self _ _))
      exact splitBlank_single hnn
    | cons r2 rs' =>
      obtain ⟨-, hnn, hns, -⟩ := wellFormedRecord_parts (h r (List.mem_cons_self _ _))
      have hlast : r.getLast? ≠ some '\n' := by
        intro he
        have := noEdgeSpace_getLast hns '\n' he
        simp [pyIsSpace] at this
      show splitBlank (r ++ '\n' :: '\n' :: joinBlank (r2 :: rs')) = _
      rw [splitBlank_append _ hnn hlast,
        ih (by simp) (fun x hx => h x (List.mem_cons_of_mem _ hx))]

theorem mem_colon_split {l : PyStr} (h : ':' ∈ l) :
    ∃ p, splitFirstColon l = some p := by
  induction l with
  | nil => cases h
  | cons c rest ih =>
    by_cases hc : c = ':'
    · exact ⟨([], rest), by simp [splitFirstColon, hc]⟩
    · obtain ⟨p, hp⟩ := ih (by
        rcases List.mem_cons.mp h with h1 | h1
        · exact absurd h1.symm hc
        · exact h1)
      exact ⟨(c :: p.1, p.2), by simp [splitFirstColon, hc, hp]⟩

theorem anvl_to_dict_lines_ok (lines : List PyStr)
    (h : ∀ l ∈ lines, ezid2.lineOk l = true) :
    ∀ acc, ∃ d, ezid2.anvl_to_dict_lines lines acc = Except.ok d := by
  induction lines with
  | nil => intro acc; exact ⟨acc, rfl⟩
  | cons l rest ih =>
    intro acc
    have hl := h l (List.mem_cons_self _ _)
    have hrest := fun x hx => h x (List.mem_cons_of_mem _ hx)
    unfold ezid2.lineOk at hl
    rw [Bool.or_eq_true, Bool.or_eq_true] at hl
    show ∃ d, (if ("::".toList).isPrefixOf l = true
      then ezid2.anvl_to_dict_lines rest (dictInsert "ark".toList (l.drop 3) acc)
      else if pyStrip l ≠ [] then
        match splitFirstColon l with
        | Option.none => Except.error ()
        | some (k, v) =>
          ezid2.anvl_to_dict_lines rest (dictInsert (pyStrip k) (pyStrip v) acc)
      else ezid2.anvl_to_dict_lines rest acc) = Except.ok d
    by_cases h1 : ("::".toList).isPrefixOf l = true
    · rw [if_pos h1]
      exact ih hrest _
    · rw [if_neg h1]
      by_cases h2 : pyStrip l = []
      · rw [if_neg (by simpa using h2)]
        exact ih hrest _
      · rw [if_pos h2]
        have hcol : ':' ∈ l := by
          rcases hl with (hl1 | hl1) | hl1
          · exact absurd hl1 h1
          · exact absurd (by simpa using hl1) h2
          · rw [List.contains] at hl1
            exact List.elem_iff.mp hl1
        obtain ⟨⟨k, v⟩, hp⟩ := mem_colon_split hcol
        rw [hp]
        exact ih hrest _

theorem listDecode_all_ok (rs : List PyStr)
    (h : ∀ r ∈ rs, ∃ d, ezid2.anvl_to_dict r = Except.ok d) :
    ∃ ds, ezid2.listDecode rs = Except.ok ds ∧ ds.length = rs.length ∧
      ∀ i, i < rs.length →
        ezid2.anvl_to_dict (rs.getD i []) = Except.ok (ds.getD i []) := by
  induction rs with
  | nil => exact ⟨[], rfl, rfl, fun i hi => by simp at hi⟩
  | cons r rs' ih =>
    obtain ⟨d, hd⟩ := h r (List.mem_cons_self _ _)
    obtain ⟨ds, h1, h2, h3⟩ := ih (fun x hx => h x (List.mem_cons_of_mem _ hx))
    refine ⟨d :: ds, ?_, by simpa using h2, ?_⟩
    · show (ezid2.anvl_to_dict r >>= fun d =>
        ezid2.listDecode rs' >>= fun ds => Except.ok (d :: ds)) = _
      rw [hd, h1]
      rfl
    · intro i hi
      cases i with
      | zero => simpa using hd
      | succ j =>
        simp only [List.getD_cons_succ]
        exact h3 j (by simpa using hi)

theorem anvl_to_dict_ok {r : PyStr} (h : ezid2.wellFormedRecord r = true) :
    ∃ d, ezid2.anvl_to_dict r = Except.ok d := by
  obtain ⟨-, -, -, hall⟩ := wellFormedRecord_parts h
  exact anvl_to_dict_lines_ok (splitLines r) (fun l hl => List.all_eq_true.mp hall l hl) []

/-- C5: `anvls_to_dict` on N well-formed records joined by the blank-line
separator — with any number of trailing newline characters, covering both
trailing blank lines and a final record with no trailing separator —
returns exactly N mappings, the i-th being `anvl_to_dict` of the i-th
record's own text, with no fields of an earlier record leaking into a
later mapping. -/
theorem anvls_to_dict_multirecord (records : List PyStr) (m : Nat)
    (hne : records ≠ [])
    (hwf : ∀ r ∈ records, ezid2.wellFormedRecord r = true) :
    ∃ ds, ezid2.anvls_to_dict (joinBlank records ++ List.replicate m '\n') =
        Except.ok ds ∧
      ds.length = records.length ∧
      ∀ i, i < records.length →
        ezid2.anvl_to_dict (records.getD i []) = Except.ok (ds.getD i []) := by
  have hstrip : pyStrip (joinBlank records ++ List.replicate m '\n') =
      joinBlank records :=
    pyStrip_append_newlines _ m (joinBlank_head hwf) (joinBlank_getLast hwf)
  unfold ezid2.anvls_to_dict
  rw [hstrip, splitBlank_joinBlank hne hwf]
  exact listDecode_all_ok records (fun r hr => anvl_to_dict_ok (hwf r hr))

theorem anvls_to_dict_multirecord_witness :
    ∃ ds, ezid2.anvls_to_dict
        (joinBlank ["dc.title: Front".toList, ":: ark/99999/x\ndc.title: Back".toList]
          ++ List.replicate 2 '\n') = Except.ok ds ∧
      ds.length = 2 ∧
      ∀ i, i < 2 →
        ezid2.anvl_to_dict
          (["dc.title: Front".toList, ":: ark/99999/x\ndc.title: Back".toList].getD i []) =
          Except.ok (ds.getD i []) :=
  anvls_to_dict_multirecord
    ["dc.title: Front".toList, ":: ark/99999/x\ndc.title: Back".toList] 2
    (by decide) (by decide)

/-! ### Lemmas for the lifecycle-manager claims -/

theorem drop9_marker (a : PyStr) : (successMarker ++ a).drop 9 = a := by
  rw [show (9 : Nat) = successMarker.length from rfl, List.drop_left]

theorem pyEq_str_self (s : PyStr) : pyEq (.str s) (.str s) = true := by
  simp [pyEq]

theorem dictGet_append_self {α : Type} (k : PyStr) (v : α) (d : List (PyStr × α))
    (h : ∀ p ∈ d, (p.1 == k) = false) : dictGet (d ++ [(k, v)]) k = some v := by
  unfold dictGet
  induction d with
  | nil => rw [List.nil_append, List.find?_cons_of_pos _ (by simp)]; rfl
  | cons p d' ih =>
    rw [List.cons_append, List.find?_cons_of_neg _ (by
      rw [h p (List.mem_cons_self _ _)]; exact Bool.false_ne_true)]
    exact ih (fun q hq => h q (List.mem_cons_of_mem _ hq))

theorem dictGet_map_self {α : Type} (k : PyStr) (v : α) (d : List (PyStr × α))
    (h : d.any (fun p => p.1 == k) = true) :
    dictGet (d.map (fun p => if p.1 == k then (p.1, v) else p)) k = some v := by
  unfold dictGet
  induction d with
  | nil => simp at h
  | cons p d' ih =>
    by_cases hp : (p.1 == k) = true
    · rw [List.map_cons, if_pos hp,
        @List.find?_cons_of_pos _ (fun q => q.1 == k) (p.1, v) _ hp]
      rfl
    · rw [List.map_cons, if_neg hp,
        @List.find?_cons_of_neg _ (fun q => q.1 == k) p _ hp]
      rw [List.any_cons, Bool.or_eq_true] at h
      rcases h with h | h
      · exact absurd h hp
      · exact ih h

theorem dictGet_insert_self {α : Type} (k : PyStr) (v : α) (d : List (PyStr × α)) :
    dictGet (dictInsert k v d) k = some v := by
  unfold dictInsert
  by_cases h : d.any (fun p => p.1 == k) = true
  · rw [if_pos h]
    exact dictGet_map_self k v d h
  · rw [if_neg h]
    refine dictGet_append_self k v d (fun p hp => ?_)
    rcases hb : (p.1 == k) with _ | _
    · rfl
    · exact absurd (List.any_eq_true.mpr ⟨p, hp, hb⟩) h

theorem mintCount_append_mint (ws : List RegWrite) (s a : PyStr) :
    arkimedes.mintCount (ws ++ [.mint s a]) = arkimedes.mintCount ws + 1 := by
  simp [arkimedes.mintCount, List.filter_append]

theorem mintCount_append_update (ws : List RegWrite) (s a : PyStr) :
    arkimedes.mintCount (ws ++ [.update s a]) = arkimedes.mintCount ws := by
  simp [arkimedes.mintCount, List.filter_append]

theorem replaceFirst_append (p : db.Ark → Bool) (v : db.Ark) (X Y : List db.Ark)
    (R : db.Ark) (hX : ∀ x ∈ X, p x = false) (hR : p R = true) :
    db.replaceFirst p v (X ++ R :: Y) = X ++ v :: Y := by
  induction X with
  | nil =>
    show db.replaceFirst p v (R :: Y) = v :: Y
    unfold db.replaceFirst
    rw [if_pos hR]
  | cons x X' ih =>
    show db.replaceFirst p v (x :: (X' ++ R :: Y)) = x :: (X' ++ v :: Y)
    unfold db.replaceFirst
    rw [if_neg (by rw [hX x (List.mem_cons_self _ _)]; exact Bool.false_ne_true),
      ih (fun q hq => hX q (List.mem_cons_of_mem _ hq))]

theorem find_url_eq_nil {u : PyVal} {t : List db.Ark}
    (h : db.url_is_in_db u t = false) : db.find_url u t = [] := by
  unfold db.url_is_in_db at h
  cases hl : db.find_url u t with
  | nil => rfl
  | cons x xs => rw [hl] at h; simp at h

theorem except_bind_ok {ε α β : Type} (a : α) (f : α → Except ε β) :
    (Except.ok a : Except ε α) >>= f = f a := rfl

theorem upload_mint_eq (args : arkimedes.Args) (anvl : PyStr) (w : World)
    (arkRec : db.Ark)
    (hfa : db.from_anvl (successMarker ++ mkArk args.target w.reg.nextId
      ++ '\n' :: anvl) = Except.ok arkRec)
    (hfresh : ∀ r ∈ w.db, pyEq r.ark arkRec.ark = false) :
    arkimedes.upload args anvl "mint".toList w = Except.ok
      (mkArk args.target w.reg.nextId,
       { db := w.db ++ [arkRec],
         reg := { nextId := w.reg.nextId + 1,
                  stored := dictInsert (mkArk args.target w.reg.nextId) anvl
                    w.reg.stored },
         writes := w.writes ++ [.mint args.target anvl] }) := by
  have hany : w.db.any (fun r => pyEq r.ark arkRec.ark) = false := by
    rcases hb : w.db.any (fun r => pyEq r.ark arkRec.ark) with _ | _
    · rfl
    · obtain ⟨r, hr, hre⟩ := List.any_eq_true.mp hb
      rw [hfresh r hr] at hre
      cases hre
  unfold arkimedes.upload
  unfold ezid.upload_anvl
  rw [if_pos rfl]
  unfold Registry.mintResp
  simp only [except_bind_ok, drop9_marker, if_pos rfl]
  unfold arkimedes.add_ark_to_db
  unfold ezid.view_anvl Registry.viewResp
  rw [dictGet_insert_self]
  simp only [hfa, except_bind_ok]
  unfold db.add_to_db
  simp only [hany, Bool.false_eq_true, if_false, except_bind_ok]
  simp only [if_true, except_bind_ok]

theorem upload_update_eq (args : arkimedes.Args) (anvl : PyStr) (w : World)
    (d₁ : List (PyStr × PyStr)) (table : List db.Ark)
    (hdict : ezid.anvl_to_dict anvl = Except.ok d₁)
    (hupd : db.update_db_record args.target (arkimedes.strPairs d₁) w.db =
      Except.ok table) :
    arkimedes.upload args anvl "update".toList w = Except.ok
      (args.target,
       { db := table,
         reg := { nextId := w.reg.nextId,
                  stored := dictInsert args.target anvl w.reg.stored },
         writes := w.writes ++ [.update args.target anvl] }) := by
  unfold arkimedes.upload
  unfold ezid.upload_anvl
  rw [if_neg (by decide), if_pos rfl]
  unfold Registry.updateResp
  simp only [except_bind_ok, drop9_marker]
  rw [if_neg (by decide)]
  simp only [hdict, except_bind_ok, hupd]

theorem submit_md_mint_eq (args : arkimedes.Args) (anvl url : PyStr) (w : World)
    (arkRec : db.Ark)
    (hact : args.action ≠ "update".toList)
    (hurl : ezid.get_value_from_anvl_string "_target".toList anvl =
      Except.ok (some url))
    (hnew : db.url_is_in_db (.str url) w.db = false)
    (hnorep : args.reuse = false ∨ db.find_replaceable w.db = [])
    (hfa : db.from_anvl (successMarker ++ mkArk args.target w.reg.nextId
      ++ '\n' :: anvl) = Except.ok arkRec)
    (hfresh : ∀ r ∈ w.db, pyEq r.ark arkRec.ark = false) :
    arkimedes.submit_md args anvl w = Except.ok
      (.minted (mkArk args.target w.reg.nextId),
       { db := w.db ++ [arkRec],
         reg := { nextId := w.reg.nextId + 1,
                  stored := dictInsert (mkArk args.target w.reg.nextId) anvl
                    w.reg.stored },
         writes := w.writes ++ [.mint args.target anvl] }) := by
  unfold arkimedes.submit_md
  rw [if_neg hact, hurl, except_bind_ok]
  simp only [hnew, Bool.false_eq_true, if_false]
  rcases hnorep with hnr | hnr
  · simp only [hnr, Bool.false_eq_true, if_false]
    rw [upload_mint_eq args anvl w arkRec hfa hfresh, except_bind_ok]
  · cases harg : args.reuse with
    | false =>
      simp only [Bool.false_eq_true, if_false]
      rw [upload_mint_eq args anvl w arkRec hfa hfresh, except_bind_ok]
    | true =>
      simp only [if_true]
      rw [hnr]
      show (do
        let p ← arkimedes.upload args anvl "mint".toList w
        Except.ok (arkimedes.Outcome.minted p.1, p.2)) = _
      rw [upload_mint_eq args anvl w arkRec hfa hfresh, except_bind_ok]

theorem submit_md_dup_eq (args : arkimedes.Args) (anvl url : PyStr) (w : World)
    (hact : args.action ≠ "update".toList)
    (hurl : ezid.get_value_from_anvl_string "_target".toList anvl =
      Except.ok (some url))
    (hdup : db.url_is_in_db (.str url) w.db = true) :
    ∃ a, arkimedes.submit_md args anvl w = Except.ok (.duplicate a, w) := by
  unfold arkimedes.submit_md
  rw [if_neg hact, hurl, except_bind_ok]
  simp only [hdup, if_true]
  obtain ⟨r, hr⟩ : ∃ r, (db.find_url (.str url) w.db).head? = some r := by
    unfold db.url_is_in_db at hdup
    cases hh : (db.find_url (.str url) w.db).head? with
    | none => rw [hh] at hdup; cases hdup
    | some r => exact ⟨r, rfl⟩
  rw [hr]
  exact ⟨r.ark, rfl⟩

/-- C1: when the cache already holds a record with the submitted target,
`submit_md` stops with a duplicate notice and leaves the world — registry,
write log, and cache — untouched; and two sequential submissions of the
same target mint exactly once: the first mints and caches the fetched
record, whose target then makes the second submission report a duplicate
with no further write. -/
theorem submit_md_dedup_idempotent (args : arkimedes.Args) (anvl url : PyStr)
    (wdup w₀ : World) (arkRec : db.Ark)
    (hact : args.action ≠ "update".toList)
    (hreuse : args.reuse = false)
    (hurl : ezid.get_value_from_anvl_string "_target".toList anvl =
      Except.ok (some url))
    (hdup : db.url_is_in_db (.str url) wdup.db = true)
    (hnew : db.url_is_in_db (.str url) w₀.db = false)
    (hfa : db.from_anvl (successMarker ++ mkArk args.target w₀.reg.nextId
      ++ '\n' :: anvl) = Except.ok arkRec)
    (htar : arkRec.target = .str url)
    (hfresh : ∀ r ∈ w₀.db, pyEq r.ark arkRec.ark = false) :
    (∃ a, arkimedes.submit_md args anvl wdup = Except.ok (.duplicate a, wdup)) ∧
    arkimedes.submit_md args anvl w₀ = Except.ok
      (.minted (mkArk args.target w₀.reg.nextId),
       { db := w₀.db ++ [arkRec],
         reg := { nextId := w₀.reg.nextId + 1,
                  stored := dictInsert (mkArk args.target w₀.reg.nextId) anvl
                    w₀.reg.stored },
         writes := w₀.writes ++ [.mint args.target anvl] }) ∧
    arkimedes.mintCount (w₀.writes ++ [.mint args.target anvl]) =
      arkimedes.mintCount w₀.writes + 1 ∧
    (∃ a, arkimedes.submit_md args anvl
        { db := w₀.db ++ [arkRec],
          reg := { nextId := w₀.reg.nextId + 1,
                   stored := dictInsert (mkArk args.target w₀.reg.nextId) anvl
                     w₀.reg.stored },
          writes := w₀.writes ++ [.mint args.target anvl] } =
      Except.ok (.duplicate a,
        { db := w₀.db ++ [arkRec],
          reg := { nextId := w₀.reg.nextId + 1,
                   stored := dictInsert (mkArk args.target w₀.reg.nextId) anvl
                     w₀.reg.stored },
          writes := w₀.writes ++ [.mint args.target anvl] })) := by
  have hW1dup : db.url_is_in_db (.str url) (w₀.db ++ [arkRec]) = true := by
    unfold db.url_is_in_db db.find_url db.find
    rw [List.filter_append]
    have h1 : List.filter (fun r => pyEq (db.colGet .target r) (.str url)) w₀.db
        = [] := find_url_eq_nil hnew
    rw [h1, List.nil_append, List.filter_cons_of_pos (by
      show pyEq (db.colGet .target arkRec) (.str url) = true
      show pyEq arkRec.target (.str url) = true
      rw [htar]
      exact pyEq_str_self url)]
    rfl
  exact ⟨submit_md_dup_eq args anvl url wdup hact hurl hdup,
    submit_md_mint_eq args anvl url w₀ arkRec hact hurl hnew (Or.inl hreuse)
      hfa hfresh,
    mintCount_append_mint _ _ _,
    submit_md_dup_eq args anvl url _ hact hurl hW1dup⟩

theorem submit_md_dedup_idempotent_witness :
    (∃ a, arkimedes.submit_md wArgs wAnvl wWorld1 =
      Except.ok (.duplicate a, wWorld1)) ∧
    arkimedes.submit_md wArgs wAnvl wWorld0 = Except.ok
      (.minted (mkArk wArgs.target wWorld0.reg.nextId),
       { db := wWorld0.db ++ [wRec],
         reg := { nextId := wWorld0.reg.nextId + 1,
                  stored := dictInsert (mkArk wArgs.target wWorld0.reg.nextId)
                    wAnvl wWorld0.reg.stored },
         writes := wWorld0.writes ++ [.mint wArgs.target wAnvl] }) ∧
    arkimedes.mintCount (wWorld0.writes ++ [.mint wArgs.target wAnvl]) =
      arkimedes.mintCount wWorld0.writes + 1 ∧
    (∃ a, arkimedes.submit_md wArgs wAnvl
        { db := wWorld0.db ++ [wRec],
          reg := { nextId := wWorld0.reg.nextId + 1,
                   stored := dictInsert (mkArk wArgs.target wWorld0.reg.nextId)
                     wAnvl wWorld0.reg.stored },
          writes := wWorld0.writes ++ [.mint wArgs.target wAnvl] } =
      Except.ok (.duplicate a,
        { db := wWorld0.db ++ [wRec],
          reg := { nextId := wWorld0.reg.nextId + 1,
                   stored := dictInsert (mkArk wArgs.target wWorld0.reg.nextId)
                     wAnvl wWorld0.reg.stored },
          writes := wWorld0.writes ++ [.mint wArgs.target wAnvl] })) :=
  submit_md_dedup_idempotent wArgs wAnvl wUrl wWorld1 wWorld0 wRec
    (by decide) rfl (by decide) (by decide) (by decide) (by decide) (by decide)
    (fun r hr => absurd hr (List.not_mem_nil r))

theorem pyEq_bool_false_true : pyEq (.bool false) (.bool true) = false := by decide

theorem normalizeKey_replaceable :
    db.normalizeKey "iastate.replaceable".toList = "replaceable".toList := by decide

theorem setField_replaceable (r : db.Ark) (v : PyVal) :
    db.setField r "replaceable".toList v = { r with replaceable := v } := rfl

theorem mergeRow_ark (d : List (PyStr × PyVal))
    (hd : ∀ kv ∈ d, db.normalizeKey kv.1 ≠ "ark".toList) (r0 : db.Ark) :
    (db.mergeRow r0 d).ark = r0.ark :=
  foldl_setField_ark d hd r0

/-- An update whose merged row keeps the row's own identifier and binds
only Boolean-acceptable values to the Boolean columns commits cleanly. -/
theorem update_db_record_ok (a : PyStr) (d : List (PyStr × PyVal))
    (X Y : List db.Ark) (R : db.Ark)
    (hXa : ∀ r ∈ X, pyEq r.ark (.str a) = false)
    (hRa : pyEq R.ark (.str a) = true)
    (hYa : ∀ r ∈ Y, pyEq r.ark (.str a) = false)
    (hka : (db.mergeRow R d).ark = .str a)
    (hbE : db.boolBindOk (db.mergeRow R d).export_ = true)
    (hbR : db.boolBindOk (db.mergeRow R d).replaceable = true) :
    db.update_db_record a d (X ++ R :: Y) =
      Except.ok (X ++ db.mergeRow R d :: Y) := by
  have hfind : (db.find_ark (.str a) (X ++ R :: Y)).head? = some R :=
    filter_head_first _ X Y R hXa hRa
  have hlen : ((X ++ db.mergeRow R d :: Y).filter
      (fun row => pyEq row.ark (db.mergeRow R d).ark)).length ≤ 1 := by
    rw [List.filter_append,
      List.filter_eq_nil_iff.mpr (fun x hx => by
        simp only [hka, hXa x hx]
        exact Bool.false_ne_true),
      List.filter_cons_of_pos (by rw [hka]; exact pyEq_str_self a),
      List.filter_eq_nil_iff.mpr (fun x hx => by
        simp only [hka, hYa x hx]
        exact Bool.false_ne_true)]
    exact Nat.le_refl 1
  unfold db.update_db_record
  rw [hfind]
  show (if (db.boolBindOk (db.mergeRow R d).export_ &&
        db.boolBindOk (db.mergeRow R d).replaceable) = true then
      if ((db.replaceFirst (fun r => pyEq r.ark (PyVal.str a))
          (db.mergeRow R d) (X ++ R :: Y)).filter
          (fun row => pyEq row.ark (db.mergeRow R d).ark)).length ≤ 1 then
        Except.ok (db.replaceFirst (fun r => pyEq r.ark (PyVal.str a))
          (db.mergeRow R d) (X ++ R :: Y))
      else Except.error ()
    else Except.error ()) = _
  rw [hbE, hbR, if_pos (show (true && true) = true from rfl),
    replaceFirst_append _ _ X Y R hXa hRa]
  exact if_pos hlen

/-- C2 (amended): with exactly one replaceable row `R` in the cache and a
reuse-requesting, non-duplicate submission whose decoded mapping has no
key normalizing to `ark` and merges only Boolean-acceptable values into
the `export`/`replaceable` columns, `submit_md` issues exactly one
registry update against `R`'s identifier and commits a row whose
replaceable flag is cleared, leaving no replaceable row in the cache; a
later reuse-requesting submission against a cache with no replaceable row
mints a fresh identifier — no reusable record is claimed twice.  Without
the Boolean-bind proviso the merge commit raises after the registry
update, the flag is never cleared, and the record stays claimable (see
the counterexample). -/
theorem submit_md_reuse_claims_once
    (args : arkimedes.Args) (anvl url a : PyStr)
    (X Y : List db.Ark) (R : db.Ark) (reg₀ : Registry) (ws₀ : List RegWrite)
    (d₁ : List (PyStr × PyStr))
    (args' : arkimedes.Args) (anvl' url' : PyStr) (w' : World) (arkRec' : db.Ark)
    (hact : args.action ≠ "update".toList)
    (hreuse : args.reuse = true)
    (hurl : ezid.get_value_from_anvl_string "_target".toList anvl =
      Except.ok (some url))
    (hnew : db.url_is_in_db (.str url) (X ++ R :: Y) = false)
    (hXr : ∀ r ∈ X, pyEq r.replaceable (.bool true) = false)
    (hRr : pyEq R.replaceable (.bool true) = true)
    (hYr : ∀ r ∈ Y, pyEq r.replaceable (.bool true) = false)
    (hRa : R.ark = .str a)
    (hXa : ∀ r ∈ X, pyEq r.ark (.str a) = false)
    (hYa : ∀ r ∈ Y, pyEq r.ark (.str a) = false)
    (hdict : ezid.anvl_to_dict anvl = Except.ok d₁)
    (hdk : ∀ kv ∈ d₁, db.normalizeKey kv.1 ≠ "ark".toList)
    (hbindE : db.boolBindOk
      (db.mergeRow R (arkimedes.strPairs d₁)).export_ = true)
    (hbindR : db.boolBindOk
      (db.mergeRow R (arkimedes.strPairs d₁)).replaceable = true)
    (hact' : args'.action ≠ "update".toList)
    (hreuse' : args'.reuse = true)
    (hurl' : ezid.get_value_from_anvl_string "_target".toList anvl' =
      Except.ok (some url'))
    (hnew' : db.url_is_in_db (.str url') w'.db = false)
    (hnorep' : db.find_replaceable w'.db = [])
    (hfa' : db.from_anvl (successMarker ++ mkArk args'.target w'.reg.nextId
      ++ '\n' :: anvl') = Except.ok arkRec')
    (hfresh' : ∀ r ∈ w'.db, pyEq r.ark arkRec'.ark = false) :
    (∃ rUpd : db.Ark,
      arkimedes.submit_md args anvl { db := X ++ R :: Y, reg := reg₀, writes := ws₀ } =
        Except.ok (.reused a,
          { db := X ++ rUpd :: Y,
            reg := { nextId := reg₀.nextId, stored := dictInsert a anvl reg₀.stored },
            writes := ws₀ ++ [.update a anvl] }) ∧
      rUpd.ark = .str a ∧ rUpd.replaceable = .bool false ∧
      db.find_replaceable (X ++ rUpd :: Y) = []) ∧
    arkimedes.submit_md args' anvl' w' = Except.ok
      (.minted (mkArk args'.target w'.reg.nextId),
       { db := w'.db ++ [arkRec'],
         reg := { nextId := w'.reg.nextId + 1,
                  stored := dictInsert (mkArk args'.target w'.reg.nextId) anvl'
                    w'.reg.stored },
         writes := w'.writes ++ [.mint args'.target anvl'] }) := by
  constructor
  · -- the reuse-claiming submission
    have hdk' : ∀ kv ∈ arkimedes.strPairs d₁,
        db.normalizeKey kv.1 ≠ "ark".toList := fun kv hkv => by
      obtain ⟨q, hq, rfl⟩ := List.mem_map.mp hkv
      exact hdk q hq
    set r' := db.mergeRow R (arkimedes.strPairs d₁) with hr'
    have har' : r'.ark = .str a := by
      rw [hr', mergeRow_ark _ hdk' R, hRa]
    have hRarkEq : pyEq R.ark (.str a) = true := by
      rw [hRa]; exact pyEq_str_self a
    have hupd1 : db.update_db_record a (arkimedes.strPairs d₁) (X ++ R :: Y) =
        Except.ok (X ++ r' :: Y) :=
      update_db_record_ok a _ X Y R hXa hRarkEq hYa
        (by rw [mergeRow_ark _ hdk' R]; exact hRa) hbindE hbindR
    have hr'eq : pyEq (db.colGet .ark r') (.str a) = true := by
      show pyEq r'.ark (.str a) = true
      rw [har']
      exact pyEq_str_self a
    have hmr2 : db.mergeRow r' [("iastate.replaceable".toList, PyVal.bool false)] =
        ({ r' with replaceable := .bool false } : db.Ark) := by
      show db.setField r' (db.normalizeKey "iastate.replaceable".toList)
        (.bool false) = _
      rw [normalizeKey_replaceable, setField_replaceable]
    have hupd2 : db.update_db_record a
        [("iastate.replaceable".toList, PyVal.bool false)] (X ++ r' :: Y) =
        Except.ok (X ++ ({ r' with replaceable := .bool false } : db.Ark) :: Y) := by
      have h := update_db_record_ok a
        [("iastate.replaceable".toList, PyVal.bool false)] X Y r' hXa hr'eq hYa
        (by rw [hmr2]; exact har') (by rw [hmr2]; exact hbindE)
        (by rw [hmr2]; rfl)
      rw [hmr2] at h
      exact h
    refine ⟨{ r' with replaceable := .bool false }, ?_, har', rfl, ?_⟩
    · unfold arkimedes.submit_md
      rw [if_neg hact, hurl, except_bind_ok]
      simp only [hnew, Bool.false_eq_true, if_false, hreuse, if_true]
      have hrep1 : (db.find_replaceable (X ++ R :: Y)).head? = some R :=
        filter_head_first _ X Y R hXr hRr
      rw [hrep1]
      show (do
        let a ← arkimedes.asStr R.ark
        let p ← arkimedes.upload { args with target := a } anvl "update".toList
          { db := X ++ R :: Y, reg := reg₀, writes := ws₀ }
        let table ← db.update_db_record a
          [("iastate.replaceable".toList, PyVal.bool false)] p.2.db
        Except.ok (arkimedes.Outcome.reused p.1, { p.2 with db := table })) = _
      rw [hRa]
      show (do
        let p ← arkimedes.upload { args with target := a } anvl "update".toList
          { db := X ++ R :: Y, reg := reg₀, writes := ws₀ }
        let table ← db.update_db_record a
          [("iastate.replaceable".toList, PyVal.bool false)] p.2.db
        Except.ok (arkimedes.Outcome.reused p.1, { p.2 with db := table })) = _
      rw [upload_update_eq { args with target := a } anvl
        { db := X ++ R :: Y, reg := reg₀, writes := ws₀ } d₁ (X ++ r' :: Y)
        hdict hupd1, except_bind_ok]
      rw [hupd2, except_bind_ok]
    · unfold db.find_replaceable db.find
      rw [List.filter_append,
        List.filter_eq_nil_iff.mpr (by
          intro x hx
          rw [show pyEq (db.colGet .replaceable x) (.bool true)
            = pyEq x.replaceable (.bool true) from rfl, hXr x hx]
          exact Bool.false_ne_true),
        List.filter_cons_of_neg (by
          rw [show pyEq (db.colGet .replaceable { r' with replaceable := .bool false })
            (.bool true) = pyEq (.bool false) (.bool true) from rfl,
            pyEq_bool_false_true]
          exact Bool.false_ne_true),
        List.filter_eq_nil_iff.mpr (by
          intro x hx
          rw [show pyEq (db.colGet .replaceable x) (.bool true)
            = pyEq x.replaceable (.bool true) from rfl, hYr x hx]
          exact Bool.false_ne_true)]
      rfl
  · exact submit_md_mint_eq args' anvl' url' w' arkRec' hact' hurl' hnew'
      (Or.inr hnorep') hfa' hfresh'

theorem submit_md_reuse_claims_once_witness :
    (∃ rUpd : db.Ark,
      arkimedes.submit_md w2Args wAnvl
          { db := [] ++ w2Row :: [], reg := { nextId := 5, stored := [] },
            writes := [] } =
        Except.ok (.reused ("ark:/99999/r1".toList),
          { db := [] ++ rUpd :: [],
            reg := { nextId := 5,
                     stored := dictInsert "ark:/99999/r1".toList wAnvl [] },
            writes := [] ++ [.update "ark:/99999/r1".toList wAnvl] }) ∧
      rUpd.ark = .str "ark:/99999/r1".toList ∧ rUpd.replaceable = .bool false ∧
      db.find_replaceable ([] ++ rUpd :: []) = []) ∧
    arkimedes.submit_md w2Args w2AnvlB w2World1 = Except.ok
      (.minted (mkArk w2Args.target w2World1.reg.nextId),
       { db := w2World1.db ++ [w2Rec],
         reg := { nextId := w2World1.reg.nextId + 1,
                  stored := dictInsert (mkArk w2Args.target w2World1.reg.nextId)
                    w2AnvlB w2World1.reg.stored },
         writes := w2World1.writes ++ [.mint w2Args.target w2AnvlB] }) :=
  submit_md_reuse_claims_once w2Args wAnvl wUrl ("ark:/99999/r1".toList)
    [] [] w2Row { nextId := 5, stored := [] } []
    [("_target".toList, wUrl), ("dc.title".toList, "Letters".toList)]
    w2Args w2AnvlB w2UrlB w2World1 w2Rec
    (by decide) rfl (by decide) (by decide)
    (fun r hr => absurd hr (List.not_mem_nil r)) (by decide)
    (fun r hr => absurd hr (List.not_mem_nil r)) (by decide)
    (fun r hr => absurd hr (List.not_mem_nil r))
    (fun r hr => absurd hr (List.not_mem_nil r)) (by decide) (by decide)
    (by decide) (by decide)
    (by decide) rfl (by decide) (by decide) (by decide) (by decide)
    (by decide)

/-- C2 counterexample: the claim as stated fails on a spec-legal
submission.  A reuse-requesting submission whose record carries the wire
field `iastate.replaceable: True` decodes to a mapping that binds the
*string* `"True"` to the Boolean `replaceable` column; the registry
update against the reusable record's identifier succeeds (the identifier
is consumed), but the merge commit then raises in SQLAlchemy's Boolean
bind processing — before the flag-clearing
`update_db_record(ark, {'iastate.replaceable': False})` ever runs.  The
submission aborts, the cache row keeps `replaceable = True`, and a second
reuse-requesting submission finds the very same record as its reusable
candidate: the record is *not* transitioned to non-reusable before
another caller may claim it. -/
theorem submit_md_reuse_abort_counterexample :
    ezid.upload_anvl "ark:/99999/r1".toList w2AnvlBad "update".toList
        w2WorldBad =
      Except.ok ("ark:/99999/r1".toList,
        { db := [w2Row],
          reg := { nextId := 5,
                   stored := [("ark:/99999/r1".toList, w2AnvlBad)] },
          writes := [.update "ark:/99999/r1".toList w2AnvlBad] }) ∧
    ezid.anvl_to_dict w2AnvlBad = Except.ok
      [("_target".toList, "https://lib.example.edu/3".toList),
       ("iastate.replaceable".toList, "True".toList)] ∧
    db.update_db_record "ark:/99999/r1".toList
      (arkimedes.strPairs
        [("_target".toList, "https://lib.example.edu/3".toList),
         ("iastate.replaceable".toList, "True".toList)]) [w2Row] =
      Except.error () ∧
    arkimedes.submit_md w2Args w2AnvlBad w2WorldBad = Except.error () ∧
    (db.find_replaceable [w2Row]).head? = some w2Row := by
  refine ⟨by decide, by decide, by decide, by decide, by decide⟩
